import Mathlib

/-!
# Verification of the smart Trello MCP server core

A shallow embedding of the name-resolution engine (`src/utils/resolver.ts`),
its TTL cache (`src/utils/cache.ts`), the response-normalization layer
(`src/utils/cleaner.ts`) and the board-snapshot stitching step
(`src/tools/snapshot.ts`), together with proofs of the behavioural
properties stated in the specification.

Modelling conventions:
* JS strings are `List Char`; `toLowerCase` is `Char.toLower` mapped over the
  characters (faithful for ASCII, which is all the data model uses) and
  `trim` strips the usual ASCII whitespace from both ends.
* JS numbers arising as similarity scores are modelled as `Option ℚ`:
  `none` stands for `NaN` (which the source produces as `0/0` when both
  strings are empty); every JS comparison on scores is lifted so that any
  comparison involving `NaN` is false, exactly as in JS.
* `Array.prototype.sort` with comparator `(a, b) => b.score - a.score` is a
  stable descending sort; it is modelled by a stable insertion sort.  A
  comparator result of `NaN` is treated as `0` (ECMAScript SortCompare),
  which the model reflects by never moving an element across one it is not
  strictly below.
* Network fetches are abstracted: each resolver takes the parsed response
  of the fetch it would perform as an explicit argument, and the current
  clock value `now` is passed explicitly wherever the source reads
  `Date.now()`.
-/

/-- JS strings, modelled as lists of characters. -/
abbrev Str := List Char

/-- Characters treated as whitespace by `String.prototype.trim` (ASCII part). -/
def isWSChar (c : Char) : Bool :=
  c = ' ' || c = '\t' || c = '\n' || c = '\r'

/-- `s.trim()`: strip whitespace from both ends. -/
def trimStr (s : Str) : Str :=
  ((s.dropWhile isWSChar).reverse.dropWhile isWSChar).reverse

/-- `s.toLowerCase()`, ASCII-faithful. -/
def toLowerStr (s : Str) : Str :=
  s.map Char.toLower

/-- `s.toLowerCase().trim()` — the normalization applied to names throughout
the resolver and the cache.  (`ensureBoardAllowed` writes it as
`trim().toLowerCase()`; the two orders agree because ASCII lowercasing
preserves whitespace.) -/
def normName (s : Str) : Str :=
  trimStr (toLowerStr s)

/-- Shorthand for writing character-list literals from string literals. -/
def chars (s : String) : Str := s.data

/-! ## JS numbers for similarity scores

Scores are rationals except for the single `NaN` case (`0/0`); `none`
plays the role of `NaN`. -/

/-- A JS number that is either a rational value or `NaN` (`none`). -/
abbrev JSNum := Option ℚ

/-- JS `<` on scores: false whenever `NaN` is involved. -/
def jsLt (x y : JSNum) : Bool :=
  match x, y with
  | some a, some b => a < b
  | _, _ => false

/-- JS `>=` on scores: false whenever `NaN` is involved. -/
def jsGe (x y : JSNum) : Bool :=
  match x, y with
  | some a, some b => b ≤ a
  | _, _ => false

/-!
The kernel cannot evaluate Mathlib's rational subtraction, absolute value
and division, so the arithmetic on scores is written with `mkRat` and
raw numerator/denominator operations; `ratSub_eq`, `ratAbs_eq` and
`similarityScore_as_formula` below prove these kernel-computable forms
equal to the textbook operations the source uses. -/

/-- Rational subtraction in kernel-computable form (see `ratSub_eq`). -/
def ratSub (a b : ℚ) : ℚ :=
  mkRat (a.num * (b.den : ℤ) - b.num * (a.den : ℤ)) (a.den * b.den)

/-- Rational absolute value in kernel-computable form (see `ratAbs_eq`). -/
def ratAbs (a : ℚ) : ℚ :=
  if a.num < 0 then mkRat (-a.num) a.den else a

/-- JS `Math.abs(x - y) < eps`: false whenever `NaN` is involved. -/
def jsAbsDiffLt (x y : JSNum) (eps : ℚ) : Bool :=
  match x, y with
  | some a, some b => ratAbs (ratSub a b) < eps
  | _, _ => false

/-! ## Levenshtein distance (`levenshteinDistance` in `resolver.ts`)

The source fills a `(b.length+1) × (a.length+1)` matrix row by row.  The
model computes the same rows: `levFillRow bc a prev left` produces the tail
of row `i` (entries for columns `1..a.length`) from the previous row `prev`
(starting at column `j-1`, i.e. the diagonal entry) and the entry `left`
already placed in column `j-1` of the current row. -/

/-- Fill one row of the Levenshtein matrix past column 0. -/
def levFillRow (bc : Char) : List Char → List Nat → Nat → List Nat
  | [], _, _ => []
  | _ :: _, [], _ => []
  | ac :: as_, diag :: prevRest, left =>
      let up := prevRest.headD 0
      let cur := if bc = ac then diag else min (min (diag + 1) (left + 1)) (up + 1)
      cur :: levFillRow bc as_ prevRest cur

/-- Process the remaining characters of `b`, starting at row index `i`. -/
def levRows (a : List Char) : List Char → List Nat → Nat → List Nat
  | [], prev, _ => prev
  | bc :: bs, prev, i => levRows a bs (i :: levFillRow bc a prev i) (i + 1)

/-- `levenshteinDistance(a, b)`: the bottom-right entry of the DP matrix. -/
def levenshteinDistance (a b : Str) : Nat :=
  (levRows a b (List.range (a.length + 1)) 1).getLastD 0

/-- `similarityScore(a, b) = 1 - distance / max(len a, len b)` computed on the
lowercased strings; when both strings are empty the JS source computes `0/0`,
i.e. `NaN`, modelled as `none`.  The value is written as the single fraction
`(maxLength - distance) / maxLength` so the kernel can evaluate it;
`similarityScore_as_formula` proves it equal to the source's
`1 - distance / maxLength`. -/
def similarityScore (a b : Str) : JSNum :=
  let distance := levenshteinDistance (toLowerStr a) (toLowerStr b)
  let maxLength := max a.length b.length
  if maxLength = 0 then none
  else some (mkRat ((maxLength : ℤ) - (distance : ℤ)) maxLength)

/-! ## Fuzzy matching (`fuzzyMatch` in `resolver.ts`) -/

/-- One scored candidate, as accumulated by `fuzzyMatch`. -/
structure ScoredCand where
  candidate : Str
  score : JSNum
deriving DecidableEq

/-- Result type of `fuzzyMatch`. -/
structure FuzzyResult where
  match_ : Str
  score : JSNum
deriving DecidableEq

/-- Insert into a descending, stable ordering: an element moves past a later
one only when its score is strictly below it (JS stable sort with comparator
`(a, b) => b.score - a.score`). -/
def insertDesc (x : ScoredCand) : List ScoredCand → List ScoredCand
  | [] => [x]
  | y :: ys => if jsLt x.score y.score then y :: insertDesc x ys else x :: y :: ys

/-- Stable descending sort by score. -/
def sortDesc : List ScoredCand → List ScoredCand
  | [] => []
  | x :: xs => insertDesc x (sortDesc xs)

/-- The scored, descending-sorted candidate list `fuzzyMatch` builds. -/
def fuzzyScores (input : Str) (candidates : List Str) : List ScoredCand :=
  let normalizedInput := normName input
  sortDesc (candidates.map fun c => ⟨c, similarityScore normalizedInput (normName c)⟩)

/-- `fuzzyMatch(input, candidates)`: best scored candidate, or `null` when
there are no candidates or the top two scores are within `0.05` of each
other. -/
def fuzzyMatch (input : Str) (candidates : List Str) : Option FuzzyResult :=
  match candidates with
  | [] => none
  | _ :: _ =>
    match fuzzyScores input candidates with
    | [] => none
    | best :: rest =>
      match rest with
      | [] => some ⟨best.candidate, best.score⟩
      | secondBest :: _ =>
        if jsAbsDiffLt best.score secondBest.score (mkRat 1 20) then none
        else some ⟨best.candidate, best.score⟩

/-! ## Association-list model of JS `Map`

JS `Map` preserves insertion order; `set` on an existing key updates the
value in place, `delete` removes the entry.  Keys here are normalized
names (strings), matching the cache's usage. -/

/-- `Map.prototype.get`. -/
def assocLookup {β : Type} (m : List (Str × β)) (k : Str) : Option β :=
  (m.find? fun p => p.1 = k).map (·.2)

/-- `Map.prototype.set`: update in place if present, else append. -/
def assocSet {β : Type} (m : List (Str × β)) (k : Str) (v : β) : List (Str × β) :=
  if (assocLookup m k).isSome then
    m.map fun p => if p.1 = k then (k, v) else p
  else
    m ++ [(k, v)]

/-- `Map.prototype.delete`. -/
def assocErase {β : Type} (m : List (Str × β)) (k : Str) : List (Str × β) :=
  m.filter fun p => ¬ p.1 = k

/-! ## TTL cache (`cache.ts`)

The cache is in-memory mutable state; the model passes the state and the
clock explicitly: every operation returns the (possibly purged) new cache
alongside its result. -/

/-- A cache entry: `{ value, timestamp }`. -/
structure CacheEntry where
  value : Str
  timestamp : ℤ
deriving DecidableEq

/-- The `TrelloCache` state: board name → id entries, plus per-board maps of
list name → id entries, and the TTL in milliseconds. -/
structure TrelloCache where
  boardNameToId : List (Str × CacheEntry)
  listsByBoard : List (Str × List (Str × CacheEntry))
  ttlMs : ℤ
deriving DecidableEq

/-- The constructor `new TrelloCache(ttlMinutes)` (the source defaults
`ttlMinutes` to 5). -/
def TrelloCache.create (ttlMinutes : ℤ) : TrelloCache :=
  { boardNameToId := [], listsByBoard := [], ttlMs := ttlMinutes * 60 * 1000 }

/-- `isValid(entry)`: a present entry is valid iff `now - timestamp < ttlMs`. -/
def TrelloCache.isValid (c : TrelloCache) (now : ℤ) : Option CacheEntry → Bool
  | none => false
  | some e => now - e.timestamp < c.ttlMs

/-- `getBoardId(boardName)`: a valid hit returns the value; an expired entry
is deleted (lazy purge) and the read reports absence. -/
def TrelloCache.getBoardId (c : TrelloCache) (now : ℤ) (boardName : Str) :
    Option Str × TrelloCache :=
  let normalizedName := normName boardName
  match assocLookup c.boardNameToId normalizedName with
  | some e =>
    if c.isValid now (some e) then (some e.value, c)
    else (none, { c with boardNameToId := assocErase c.boardNameToId normalizedName })
  | none => (none, c)

/-- `setBoardId(boardName, boardId)` stamps the entry with the current time. -/
def TrelloCache.setBoardId (c : TrelloCache) (now : ℤ) (boardName boardId : Str) :
    TrelloCache :=
  { c with boardNameToId :=
      assocSet c.boardNameToId (normName boardName) ⟨boardId, now⟩ }

/-- `getListId(boardId, listName)`: like `getBoardId` but scoped per board. -/
def TrelloCache.getListId (c : TrelloCache) (now : ℤ) (boardId listName : Str) :
    Option Str × TrelloCache :=
  let normalizedName := normName listName
  match assocLookup c.listsByBoard boardId with
  | none => (none, c)
  | some boardLists =>
    match assocLookup boardLists normalizedName with
    | some e =>
      if c.isValid now (some e) then (some e.value, c)
      else
        (none,
          { c with listsByBoard :=
              assocSet c.listsByBoard boardId (assocErase boardLists normalizedName) })
    | none => (none, c)

/-- `setListId(boardId, listName, listId)`. -/
def TrelloCache.setListId (c : TrelloCache) (now : ℤ) (boardId listName listId : Str) :
    TrelloCache :=
  let boardLists := (assocLookup c.listsByBoard boardId).getD []
  { c with listsByBoard :=
      assocSet c.listsByBoard boardId (assocSet boardLists (normName listName) ⟨listId, now⟩) }

/-! ## Name resolution (`resolveBoardId` / `resolveListId` in `resolver.ts`) -/

/-- An upstream board or list record: `{ id, name }`. -/
structure NamedRec where
  id : Str
  name : Str
deriving DecidableEq

/-- Successful resolution: `{ id, exactMatch }`. -/
structure Resolution where
  id : Str
  exactMatch : Bool
deriving DecidableEq

/-- The error conditions a resolution can throw.  `ambiguous` and
`noConfident` carry the candidate names interpolated into the thrown
message. -/
inductive ResolveErr where
  | accessDenied : ResolveErr
  | notFoundEmpty : ResolveErr
  | ambiguous (shown : List Str) : ResolveErr
  | noConfident (shown : List Str) : ResolveErr
  | internalNoMatch : ResolveErr
deriving DecidableEq

deriving instance DecidableEq for Except

/-- `ensureBoardAllowed`: with no allow-list configured every name passes;
otherwise the normalized name must be a member.  The allow-list argument is
the already-parsed `TRELLO_ALLOWED_BOARDS` value (entries trimmed and
lowercased by `getAllowedBoards`). -/
def boardAllowed (allowed : Option (List Str)) (boardName : Str) : Bool :=
  match allowed with
  | none => true
  | some l => normName boardName ∈ l

/-- The part of `resolveBoardId` after the access guard and cache probe:
empty-listing check, exact scan, then fuzzy matching.  `boards` is the
parsed response of the boards fetch. -/
def resolveBoardIdCore (boardName : Str) (boards : List NamedRec)
    (cache : Option TrelloCache) (now : ℤ) :
    Except ResolveErr Resolution × Option TrelloCache :=
  match boards with
  | [] => (.error .notFoundEmpty, cache)
  | _ :: _ =>
    let normalizedInput := normName boardName
    match boards.find? (fun b => normName b.name = normalizedInput) with
    | some b =>
      (.ok ⟨b.id, true⟩, cache.map fun c => c.setBoardId now boardName b.id)
    | none =>
      let boardNames := boards.map (·.name)
      match fuzzyMatch boardName boardNames with
      | none => (.error (.ambiguous (boardNames.take 10)), cache)
      | some m =>
        if jsLt m.score (some (mkRat 4 5)) then
          (.error (.noConfident (boardNames.take 5)), cache)
        else
          match boards.find? (fun b => b.name = m.match_) with
          | some b =>
            (.ok ⟨b.id, false⟩, cache.map fun c => c.setBoardId now boardName b.id)
          | none =>
            -- unreachable: `m.match_` is always one of the fetched names;
            -- a miss would be a TypeError in the source
            (.error .internalNoMatch, cache)

/-- `resolveBoardId(boardName, credentials, cache?)`: access guard, cache
probe, then `resolveBoardIdCore` over the fetched listing. -/
def resolveBoardId (boardName : Str) (allowed : Option (List Str))
    (boards : List NamedRec) (cache : Option TrelloCache) (now : ℤ) :
    Except ResolveErr Resolution × Option TrelloCache :=
  if boardAllowed allowed boardName then
    match cache with
    | some c =>
      match c.getBoardId now boardName with
      | (some id, c') => (.ok ⟨id, true⟩, some c')
      | (none, c') => resolveBoardIdCore boardName boards (some c') now
    | none => resolveBoardIdCore boardName boards none now
  else
    (.error .accessDenied, cache)

/-- The part of `resolveListId` after the cache probe.  Unlike the board
variant, both failure messages interpolate the full candidate list. -/
def resolveListIdCore (boardId listName : Str) (lists : List NamedRec)
    (cache : Option TrelloCache) (now : ℤ) :
    Except ResolveErr Resolution × Option TrelloCache :=
  match lists with
  | [] => (.error .notFoundEmpty, cache)
  | _ :: _ =>
    let normalizedInput := normName listName
    match lists.find? (fun l => normName l.name = normalizedInput) with
    | some l =>
      (.ok ⟨l.id, true⟩, cache.map fun c => c.setListId now boardId listName l.id)
    | none =>
      let listNames := lists.map (·.name)
      match fuzzyMatch listName listNames with
      | none => (.error (.ambiguous listNames), cache)
      | some m =>
        if jsLt m.score (some (mkRat 4 5)) then
          (.error (.noConfident listNames), cache)
        else
          match lists.find? (fun l => l.name = m.match_) with
          | some l =>
            (.ok ⟨l.id, false⟩, cache.map fun c => c.setListId now boardId listName l.id)
          | none => (.error .internalNoMatch, cache)

/-- `resolveListId(boardId, listName, credentials, cache?)`. -/
def resolveListId (boardId listName : Str) (lists : List NamedRec)
    (cache : Option TrelloCache) (now : ℤ) :
    Except ResolveErr Resolution × Option TrelloCache :=
  match cache with
  | some c =>
    match c.getListId now boardId listName with
    | (some id, c') => (.ok ⟨id, true⟩, some c')
    | (none, c') => resolveListIdCore boardId listName lists (some c') now
  | none => resolveListIdCore boardId listName lists none now

/-! ## Card resolution (`resolveCardId` in `resolver.ts`)

`resolveCardId` first queries the search endpoint; on an empty result it
falls back to `resolveCardIdFromBoardListing` over the full open-card
listing of the board.  The parsed search result and the parsed fallback
listing are passed as arguments.  Search results always carry a name
(`card.name` is dereferenced without a guard); fallback cards may lack one
(`card.name?` and a `typeof` filter in the source), hence the optional
name. -/

/-- A card from the search endpoint. -/
structure SearchCard where
  id : Str
  name : Str
deriving DecidableEq

/-- A card from the fallback open-card listing (name may be missing). -/
structure ListedCard where
  id : Str
  name : Option Str
deriving DecidableEq

/-- Successful card resolution: `{ id, name }`. -/
structure CardHit where
  id : Str
  name : Str
deriving DecidableEq

/-- Card-resolution failures. -/
inductive CardErr where
  | fallbackEmpty : CardErr
  | notFoundAfterFallback : CardErr
deriving DecidableEq

/-- `resolveCardIdFromBoardListing`: exact (case/whitespace-insensitive)
scan, then fuzzy matching accepted only at score `>= 0.9`. -/
def resolveCardIdFromBoardListing (cardName : Str) (cards : List ListedCard) :
    Except CardErr CardHit :=
  match cards with
  | [] => .error .fallbackEmpty
  | _ :: _ =>
    let normalizedInput := normName cardName
    match cards.find? (fun c =>
        match c.name with
        | some s => normName s = normalizedInput
        | none => false) with
    | some c => .ok ⟨c.id, c.name.getD []⟩
    | none =>
      let candidateNames := cards.filterMap (·.name)
      match fuzzyMatch cardName candidateNames with
      | some m =>
        if jsGe m.score (some (mkRat 9 10)) then
          match cards.find? (fun c => c.name = some m.match_) with
          | some c => .ok ⟨c.id, c.name.getD []⟩
          | none => .error .notFoundAfterFallback
        else .error .notFoundAfterFallback
      | none => .error .notFoundAfterFallback

/-- `resolveCardId(boardId, cardName, credentials)`: search first; fall back
on zero results; a single result is returned as-is; among several results
prefer an exact (case/whitespace-insensitive) name match, else the first
(most relevant) one. -/
def resolveCardId (cardName : Str) (searchCards : List SearchCard)
    (fallbackListing : List ListedCard) : Except CardErr CardHit :=
  match searchCards with
  | [] => resolveCardIdFromBoardListing cardName fallbackListing
  | [c] => .ok ⟨c.id, c.name⟩
  | c0 :: _ :: _ =>
    let normalizedInput := normName cardName
    match searchCards.find? (fun c => normName c.name = normalizedInput) with
    | some c => .ok ⟨c.id, c.name⟩
    | none => .ok ⟨c0.id, c0.name⟩

/-! ## Raw JSON payloads (`cleaner.ts` and the snapshot stitching step)

Raw upstream payloads are duck-typed JSON; the model is a JSON value type
with an explicit `undefined` for JS `undefined` (the result of reading an
absent property).  Property access on `null`/`undefined` throws a
`TypeError`; functions that can hit that path return `Except Unit _`, with
`.error ()` standing for the thrown `TypeError`.

Lookup maps built by the cleaner (`Map` keyed by member/label ids) and the
snapshot's card index (a JS object keyed by `idList`) are modelled with
string keys: upstream ids are strings, and non-string keys do not arise in
the data model. -/

/-- A JSON-ish JS value. -/
inductive JVal where
  | undefined : JVal
  | null : JVal
  | bool : Bool → JVal
  | num : ℚ → JVal
  | str : Str → JVal
  | arr : List JVal → JVal
  | obj : List (Str × JVal) → JVal

/-- JS truthiness (`NaN` cannot occur in parsed JSON, so `num` is falsy
exactly at `0`). -/
def truthy : JVal → Bool
  | .undefined => false
  | .null => false
  | .bool b => b
  | .num q => ¬ q = 0
  | .str s => ¬ s = []
  | .arr _ => true
  | .obj _ => true

/-- JS `a || b`. -/
def jor (a b : JVal) : JVal :=
  if truthy a then a else b

/-- Property access `v.k` where `v` is known not to be `null`/`undefined`:
objects yield the field or `undefined`; primitives and arrays yield
`undefined` for every key the cleaner reads. -/
def jgetTotal (v : JVal) (k : Str) : JVal :=
  match v with
  | .obj fs => (assocLookup fs k).getD .undefined
  | _ => .undefined

/-- Property access `v.k`: throws a `TypeError` on `null`/`undefined`. -/
def jget (v : JVal) (k : Str) : Except Unit JVal :=
  match v with
  | .undefined => .error ()
  | .null => .error ()
  | _ => .ok (jgetTotal v k)

/-- A lookup map (`Map` of id → name); ids modelled as strings. -/
abbrev JMap := List (Str × JVal)

/-- `Map.get` through a possibly-absent map, as used for
`memberMap.get(memberId)`: absent key gives `undefined`. -/
def jmapGet (m : JMap) (k : JVal) : JVal :=
  match k with
  | .str s => (assocLookup m s).getD .undefined
  | _ => .undefined

/-! ## Response normalization (`cleaner.ts`) -/

/-- `buildMemberMap(board)`: id → fullName for members carrying both fields
(truthy).  Throws when `board` (or a member entry) is `null`/`undefined`. -/
def buildMemberMap (board : JVal) : Except Unit JMap := do
  let ms ← jget board (chars "members")
  match ms with
  | .arr members =>
    members.foldlM (fun m mem => do
      let i ← jget mem (chars "id")
      let f ← jget mem (chars "fullName")
      if truthy i ∧ truthy f then
        match i with
        | .str s => pure (assocSet m s f)
        | _ => pure m
      else pure m) []
  | _ => pure []

/-- `buildLabelMap(board)`: id → name for labels carrying both fields. -/
def buildLabelMap (board : JVal) : Except Unit JMap := do
  let ls ← jget board (chars "labels")
  match ls with
  | .arr labels =>
    labels.foldlM (fun m lab => do
      let i ← jget lab (chars "id")
      let n ← jget lab (chars "name")
      if truthy i ∧ truthy n then
        match i with
        | .str s => pure (assocSet m s n)
        | _ => pure m
      else pure m) []
  | _ => pure []

/-- Count `(completed, total)` over one checklist's `checkItems` array. -/
def countCheckItems (items : List JVal) : Except Unit (Nat × Nat) := do
  let completed ← items.foldlM (fun n it => do
    let s ← jget it (chars "state")
    match s with
    | .str t => pure (if t = chars "complete" then n + 1 else n)
    | _ => pure n) 0
  pure (completed, items.length)

/-- `calculateChecklistStatus(checklists)`: `"completed/total"` across all
checklists; `"0/0"` for a falsy or empty argument.  A truthy value that is
neither an array nor a string is not iterable, so `for..of` throws; the
characters of a string are iterated and contribute nothing. -/
def calculateChecklistStatus (checklists : JVal) : Except Unit Str :=
  if truthy checklists = false then pure (chars "0/0")
  else
    match checklists with
    | .arr [] => pure (chars "0/0")
    | .arr cls => do
      let (completed, total) ← cls.foldlM (fun (acc : Nat × Nat) cl => do
        let ci ← jget cl (chars "checkItems")
        match ci with
        | .arr items =>
          if truthy ci then do
            let (c, t) ← countCheckItems items
            pure (acc.1 + c, acc.2 + t)
          else pure acc
        | _ => pure acc) (0, 0)
      pure (Nat.toDigits 10 completed ++ '/' :: Nat.toDigits 10 total)
    | .str _ => pure (chars "0/0")
    | _ => .error ()

/-- The member-resolution block of `cleanCard`: resolve each id through the
member map, silently dropping misses (and falsy names). -/
def cardMembers (idMembers : JVal) (memberMap : Option JMap) : List JVal :=
  match idMembers, memberMap with
  | .arr ids, some mm =>
    if truthy (JVal.arr ids) then
      ids.foldl (fun acc memberId =>
        let memberName := jmapGet mm memberId
        if truthy memberName then acc ++ [memberName] else acc) []
    else []
  | _, _ => []

/-- The label-resolution block of `cleanCard`: a bare string id goes through
the label map (when one was passed); an embedded label object contributes
its truthy `name` field — and a `null` label entry throws. -/
def cardLabels (labelsV : JVal) (labelMap : Option JMap) : Except Unit (List JVal) :=
  match labelsV with
  | .arr labs =>
    if truthy (JVal.arr labs) then
      labs.foldlM (fun acc lab =>
        match lab, labelMap with
        | .str s, some lm =>
          let labelName := jmapGet lm (.str s)
          pure (if truthy labelName then acc ++ [labelName] else acc)
        | _, _ => do
          let n ← jget lab (chars "name")
          pure (if truthy n then acc ++ [n] else acc)) []
    else pure []
  | _ => pure []

/-- `cleanCard(card, memberMap?, labelMap?)`, producing the cleaned object
`{ id, name, desc, due, labels, members, checklistStatus, url, closed }`. -/
def cleanCard (card : JVal) (memberMap labelMap : Option JMap) :
    Except Unit JVal := do
  let idMembers ← jget card (chars "idMembers")
  let members := cardMembers idMembers memberMap
  let labelsV ← jget card (chars "labels")
  let labels ← cardLabels labelsV labelMap
  let cls ← jget card (chars "checklists")
  let checklistStatus ← calculateChecklistStatus (jor cls (.arr []))
  let idV ← jget card (chars "id")
  let nameV ← jget card (chars "name")
  let descV ← jget card (chars "desc")
  let dueV ← jget card (chars "due")
  let urlV ← jget card (chars "url")
  let shortUrlV ← jget card (chars "shortUrl")
  let closedV ← jget card (chars "closed")
  pure (.obj
    [ (chars "id", idV)
    , (chars "name", jor nameV (.str []))
    , (chars "desc", jor descV (.str []))
    , (chars "due", jor dueV .null)
    , (chars "labels", .arr labels)
    , (chars "members", .arr members)
    , (chars "checklistStatus", .str checklistStatus)
    , (chars "url", jor urlV (jor shortUrlV (.str [])))
    , (chars "closed", jor closedV (.bool false)) ])

/-- `cleanList(list, memberMap?, labelMap?)`: `{ id, name, closed }` with a
`cards` field added only when the raw list carries a card array. -/
def cleanList (list : JVal) (memberMap labelMap : Option JMap) :
    Except Unit JVal := do
  let idV ← jget list (chars "id")
  let nameV ← jget list (chars "name")
  let closedV ← jget list (chars "closed")
  let base :=
    [ (chars "id", idV)
    , (chars "name", jor nameV (.str []))
    , (chars "closed", jor closedV (.bool false)) ]
  let cardsV ← jget list (chars "cards")
  match cardsV with
  | .arr cards =>
    if truthy cardsV then do
      let cleaned ← cards.mapM (fun card => cleanCard card memberMap labelMap)
      pure (.obj (base ++ [(chars "cards", .arr cleaned)]))
    else pure (.obj base)
  | _ => pure (.obj base)

/-- `cleanBoard(board)`: builds the member/label maps, then
`{ id, name, desc, url }` with a `lists` field added only when the raw board
carries a list array. -/
def cleanBoard (board : JVal) : Except Unit JVal := do
  let memberMap ← buildMemberMap board
  let labelMap ← buildLabelMap board
  let idV ← jget board (chars "id")
  let nameV ← jget board (chars "name")
  let descV ← jget board (chars "desc")
  let urlV ← jget board (chars "url")
  let shortUrlV ← jget board (chars "shortUrl")
  let base :=
    [ (chars "id", idV)
    , (chars "name", jor nameV (.str []))
    , (chars "desc", jor descV (.str []))
    , (chars "url", jor urlV (jor shortUrlV (.str []))) ]
  let listsV ← jget board (chars "lists")
  match listsV with
  | .arr lists =>
    if truthy listsV then do
      let cleaned ← lists.mapM (fun l => cleanList l (some memberMap) (some labelMap))
      pure (.obj (base ++ [(chars "lists", .arr cleaned)]))
    else pure (.obj base)
  | _ => pure (.obj base)

/-- `v === undefined`. -/
def isUndefined : JVal → Bool
  | .undefined => true
  | _ => false

/-- `cleanTrelloResponse(data)`: the auto-detecting dispatcher.  A falsy
payload is returned as-is; arrays are dispatched on the shape of their first
element; single objects on their own fields; anything matching no heuristic
is returned unchanged. -/
def cleanTrelloResponse (data : JVal) : Except Unit JVal :=
  if truthy data = false then pure data
  else
    match data with
    | .arr [] => pure data
    | .arr (firstItem :: _) => do
      let listsV ← jget firstItem (chars "lists")
      let prefsV ← jget firstItem (chars "prefs")
      if !isUndefined listsV || !isUndefined prefsV then do
        let elems := match data with | .arr xs => xs | _ => []
        let cleaned ← elems.mapM cleanBoard
        pure (.arr cleaned)
      else do
        let cardsV ← jget firstItem (chars "cards")
        if !isUndefined cardsV then do
          let elems := match data with | .arr xs => xs | _ => []
          let cleaned ← elems.mapM (fun l => cleanList l none none)
          pure (.arr cleaned)
        else do
          let idListV ← jget firstItem (chars "idList")
          let badgesV ← jget firstItem (chars "badges")
          if !isUndefined idListV || !isUndefined badgesV then do
            let elems := match data with | .arr xs => xs | _ => []
            let cleaned ← elems.mapM (fun c => cleanCard c none none)
            pure (.arr cleaned)
          else pure data
    | _ => do
      let listsV ← jget data (chars "lists")
      let prefsV ← jget data (chars "prefs")
      if !isUndefined listsV || !isUndefined prefsV then cleanBoard data
      else do
        let cardsV ← jget data (chars "cards")
        if !isUndefined cardsV then cleanList data none none
        else do
          let idListV ← jget data (chars "idList")
          let badgesV ← jget data (chars "badges")
          if !isUndefined idListV || !isUndefined badgesV then cleanCard data none none
          else pure data

/-! ## Snapshot stitching (`get_board_snapshot` in `snapshot.ts`)

Before cleaning, a flat `cards` array sitting next to a flat `lists` array
is partitioned by `idList` and attached list by list.  The JS card index is
an object keyed by `card.idList`; upstream ids are strings, and the model
keys the index by those strings (JS would additionally coerce a non-string
pointer to its string form; such pointers do not arise). -/

/-- `card?.idList`, truthiness-checked: the grouping key for one card. -/
def cardListKey (card : JVal) : Option Str :=
  match card with
  | .null => none
  | .undefined => none
  | _ =>
    match jgetTotal card (chars "idList") with
    | .str s => if s = [] then none else some s
    | _ => none

/-- One step of the `reduce` building `cardsByList`: append a keyed card to
its group, creating the group on first sight. -/
def cardsByListStep (acc : List (Str × List JVal)) (card : JVal) :
    List (Str × List JVal) :=
  match cardListKey card with
  | none => acc
  | some k =>
    match assocLookup acc k with
    | some g => assocSet acc k (g ++ [card])
    | none => acc ++ [(k, [card])]

/-- The `reduce` building `cardsByList`. -/
def cardsByList (cards : List JVal) : List (Str × List JVal) :=
  cards.foldl cardsByListStep []

/-- The cards whose (truthy) `idList` pointer is the string `k` — the
partition the stitching step is specified to attach to the list with id
`k`. -/
def cardsWithListKey (cards : List JVal) (k : Str) : List JVal :=
  cards.filter fun c => cardListKey c = some k

/-- The partition the stitching step attaches to one raw list: the cards
pointing at its `id` (none when the list id is not a string). -/
def listAttachedCards (cards : List JVal) (l : JVal) : List JVal :=
  match jgetTotal l (chars "id") with
  | .str s => cardsWithListKey cards s
  | _ => []

/-- `{...list, cards: cs}`: the spread copy with the `cards` field set. -/
def withCards (list : JVal) (cs : List JVal) : JVal :=
  match list with
  | .obj fs => .obj (assocSet fs (chars "cards") (.arr cs))
  | _ => .obj [(chars "cards", .arr cs)]

/-- The `lists.map` of the stitching step: attach each list's partition
(`cardsByList[list.id] || []`). -/
def stitchCards (lists cards : List JVal) : Except Unit (List JVal) :=
  let index := cardsByList cards
  lists.mapM (fun l => do
    let lid ← jget l (chars "id")
    let group :=
      match lid with
      | .str s => (assocLookup index s).getD []
      | _ => []
    pure (withCards l group))

/-- The stitching step of `get_board_snapshot`: when the raw board carries
flat `cards` and `lists` arrays, replace `lists` by the stitched lists. -/
def stitchBoardData (boardData : JVal) : Except Unit JVal := do
  let cs ← jget boardData (chars "cards")
  let ls ← jget boardData (chars "lists")
  match cs, ls, boardData with
  | .arr cards, .arr lists, .obj fs => do
    let stitched ← stitchCards lists cards
    pure (.obj (assocSet fs (chars "lists") (.arr stitched)))
  | _, _, _ => pure boardData

/-- The snapshot tool's normalization: stitch, then clean. -/
def snapshotNormalize (boardData : JVal) : Except Unit JVal := do
  let b ← stitchBoardData boardData
  cleanBoard b

/-! ## Lemmas about the Levenshtein DP rows -/

/-- The filled part of a row is as long as the shorter of the character list
and the previous row. -/
theorem levFillRow_length (bc : Char) :
    ∀ (as_ : List Char) (prev : List Nat) (left : Nat),
      (levFillRow bc as_ prev left).length = min as_.length prev.length := by
  intro as_
  induction as_ with
  | nil => intro prev left; simp [levFillRow]
  | cons a as' ih =>
    intro prev left
    cases prev with
    | nil => simp [levFillRow]
    | cons p pr' =>
      simp [levFillRow, ih]
      omega

/-- Where the row character matches the column character, the filled row
copies the diagonal entry of the previous row. -/
theorem levFillRow_get (bc : Char) :
    ∀ (k : Nat) (as_ : List Char) (prev : List Nat) (left d : Nat),
      as_.get? k = some bc → prev.get? k = some d →
      (levFillRow bc as_ prev left).get? k = some d := by
  intro k
  induction k with
  | zero =>
    intro as_ prev left d ha hp
    match as_, prev with
    | [], _ => simp at ha
    | _ :: _, [] => simp at hp
    | a :: as', p :: pr' =>
      simp at ha hp
      simp [levFillRow, ha, hp]
  | succ k ih =>
    intro as_ prev left d ha hp
    match as_, prev with
    | [], _ => simp at ha
    | _ :: _, [] => simp at hp
    | a :: as', p :: pr' =>
      simp only [levFillRow, List.get?_cons_succ]
      exact ih as' pr' _ d (by simpa using ha) (by simpa using hp)

/-- Invariant of the row loop when `b` is a suffix of `a` starting at
position `d`: each new row keeps a `0` on the diagonal, and the row length
stays `a.length + 1`. -/
theorem levRows_diag (a : List Char) :
    ∀ (bs : List Char) (prev : List Nat) (d : Nat),
      prev.length = a.length + 1 →
      d + bs.length = a.length →
      (∀ j bc, bs.get? j = some bc → a.get? (d + j) = some bc) →
      prev.get? d = some 0 →
      (levRows a bs prev (d + 1)).get? a.length = some 0 ∧
        (levRows a bs prev (d + 1)).length = a.length + 1 := by
  intro bs
  induction bs with
  | nil =>
    intro prev d hlen hcount _ hdiag
    simp only [levRows]
    constructor
    · have : d = a.length := by simpa using hcount
      exact this ▸ hdiag
    · exact hlen
  | cons bc bs' ih =>
    intro prev d hlen hcount hchars hdiag
    simp only [levRows]
    have hfill_len : (levFillRow bc a prev (d + 1)).length = a.length := by
      rw [levFillRow_length, hlen]
      omega
    have hstep :
        ((d + 1) :: levFillRow bc a prev (d + 1)).get? (d + 1) = some 0 := by
      simp only [List.get?_cons_succ]
      exact levFillRow_get bc d a prev (d + 1) 0
        (by simpa using hchars 0 bc (by simp)) hdiag
    have := ih ((d + 1) :: levFillRow bc a prev (d + 1)) (d + 1)
      (by simp [hfill_len])
      (by simp at hcount ⊢; omega)
      (fun j bc' hj => by
        have := hchars (j + 1) bc' (by simpa using hj)
        simpa [Nat.add_assoc, Nat.add_comm 1 j] using this)
      hstep
    simpa [Nat.add_assoc] using this

/-- The DP computes distance `0` between a string and itself. -/
theorem levenshteinDistance_self (a : Str) : levenshteinDistance a a = 0 := by
  have h := levRows_diag a a (List.range (a.length + 1)) 0
    (by simp)
    (by simp)
    (fun j bc hj => by simpa using hj)
    (by simp [List.get?_eq_getElem?, List.getElem?_range])
  unfold levenshteinDistance
  rcases h with ⟨hget, hlen⟩
  have hlast : (levRows a a (List.range (a.length + 1)) 1).getLast? = some 0 := by
    rw [List.getLast?_eq_getElem?, hlen]
    simpa [List.get?_eq_getElem?] using hget
  rw [List.getLastD_eq_getLast?, hlast]
  rfl

/-- `ratSub` is rational subtraction. -/
theorem ratSub_eq (a b : ℚ) : ratSub a b = a - b := by
  have ha : (a.den : ℚ) ≠ 0 := by exact_mod_cast a.den_ne_zero
  have hb : (b.den : ℚ) ≠ 0 := by exact_mod_cast b.den_ne_zero
  have h1 : (a.num : ℚ) = a * a.den := (div_eq_iff ha).mp (Rat.num_div_den a)
  have h2 : (b.num : ℚ) = b * b.den := (div_eq_iff hb).mp (Rat.num_div_den b)
  unfold ratSub
  rw [Rat.mkRat_eq_div,
    div_eq_iff (Nat.cast_ne_zero.mpr (mul_ne_zero a.den_ne_zero b.den_ne_zero) :
      ((a.den * b.den : ℕ) : ℚ) ≠ 0)]
  push_cast
  rw [h1, h2]
  ring

/-- `ratAbs` is the rational absolute value. -/
theorem ratAbs_eq (a : ℚ) : ratAbs a = |a| := by
  unfold ratAbs
  split
  · rename_i h
    have hneg : a < 0 := Rat.num_neg.mp h
    rw [abs_of_neg hneg, Rat.mkRat_eq_div]
    push_cast
    rw [neg_div, Rat.num_div_den]
  · rename_i h
    have hpos : 0 ≤ a := Rat.num_nonneg.mp (not_lt.mp h)
    rw [abs_of_nonneg hpos]

/-- The ambiguity threshold constant is `0.05`. -/
theorem mkRat_one_twenty : (mkRat 1 20 : ℚ) = 1/20 := by
  rw [Rat.mkRat_eq_div]
  norm_num

/-- The confidence threshold constant is `0.8`. -/
theorem mkRat_four_five : (mkRat 4 5 : ℚ) = 4/5 := by
  rw [Rat.mkRat_eq_div]
  norm_num

/-- The fallback acceptance threshold constant is `0.9`. -/
theorem mkRat_nine_ten : (mkRat 9 10 : ℚ) = 9/10 := by
  rw [Rat.mkRat_eq_div]
  norm_num

/-- The score fraction is exactly the source's `1 - distance / maxLength`. -/
theorem similarityScore_as_formula (a b : Str) (h : max a.length b.length ≠ 0) :
    similarityScore a b =
      some (1 - (levenshteinDistance (toLowerStr a) (toLowerStr b) : ℚ) /
        (max a.length b.length : ℚ)) := by
  have hQ : ((max a.length b.length : ℕ) : ℚ) ≠ 0 := Nat.cast_ne_zero.mpr h
  simp only [similarityScore, h, if_false]
  congr 1
  rw [Rat.mkRat_eq_div]
  push_cast
  rw [sub_div, div_self (by push_cast at hQ; exact hQ)]

/-- The similarity of a nonempty string with itself is `1`. -/
theorem similarityScore_self (a : Str) (h : a ≠ []) : similarityScore a a = some 1 := by
  have hne : a.length ≠ 0 := by
    simpa using (List.length_pos.mpr h).ne'
  have hmax : max a.length a.length ≠ 0 := by simpa using hne
  rw [similarityScore_as_formula a a hmax, levenshteinDistance_self]
  norm_num

/-- Claim C2 (counterexample): the similarity of the empty string with
itself is not `1`; the source computes `1 - 0/0`, i.e. `NaN`. -/
theorem claim2_empty_similarity_not_one :
    similarityScore [] [] = none ∧ similarityScore [] [] ≠ some 1 := by
  decide

/-- Claim C2 (amended): whenever the two strings are not both empty, the
similarity score is `1 - levenshteinDistance / max(len a, len b)` computed
case-insensitively (the callers, not the scorer, trim their arguments); in
particular the similarity of every nonempty string with itself is `1`.  For
two empty strings the score is `NaN` (`0/0`). -/
theorem claim2_similarity_formula_and_self :
    (∀ a b : Str, max a.length b.length ≠ 0 →
      similarityScore a b =
        some (1 - (levenshteinDistance (toLowerStr a) (toLowerStr b) : ℚ) /
          (max a.length b.length : ℚ))) ∧
    (∀ a : Str, a ≠ [] → similarityScore a a = some 1) := by
  constructor
  · intro a b h
    exact similarityScore_as_formula a b h
  · intro a h
    exact similarityScore_self a h

/-- Concrete instance of claim C2's theorem: the spec's own scenario string
`"marketing"`. -/
theorem claim2_witness :
    similarityScore (chars "markting") (chars "marketing") =
      some (1 - (levenshteinDistance (toLowerStr (chars "markting"))
        (toLowerStr (chars "marketing")) : ℚ) /
        (max (chars "markting").length (chars "marketing").length : ℚ)) ∧
    similarityScore (chars "marketing") (chars "marketing") = some 1 :=
  ⟨claim2_similarity_formula_and_self.1 (chars "markting") (chars "marketing") (by decide),
   claim2_similarity_formula_and_self.2 (chars "marketing") (by decide)⟩

/-! ## Lemmas about the stable descending sort -/

/-- Inserting adds one element. -/
theorem insertDesc_length (x : ScoredCand) :
    ∀ l : List ScoredCand, (insertDesc x l).length = l.length + 1 := by
  intro l
  induction l with
  | nil => rfl
  | cons y ys ih =>
    simp only [insertDesc]
    split
    · simp [ih]
    · simp

/-- Sorting preserves length. -/
theorem sortDesc_length : ∀ l : List ScoredCand, (sortDesc l).length = l.length := by
  intro l
  induction l with
  | nil => rfl
  | cons x xs ih => simp [sortDesc, insertDesc_length, ih]

/-- The scored list has one entry per candidate. -/
theorem fuzzyScores_length (input : Str) (candidates : List Str) :
    (fuzzyScores input candidates).length = candidates.length := by
  simp [fuzzyScores, sortDesc_length]

/-- Claim C1: whenever the scored candidate list has at least two entries
and its top two scores differ by less than `0.05`, `fuzzyMatch` returns no
match, however high the best score; consequently board resolution (with no
exact match in the listing) fails with the ambiguity error, which carries
the first ten candidate names. -/
theorem claim1_ambiguity_gap_returns_no_match
    (input : Str) (candidates : List Str) (best secondBest : ScoredCand)
    (rest : List ScoredCand)
    (hscores : fuzzyScores input candidates = best :: secondBest :: rest)
    (hgap : jsAbsDiffLt best.score secondBest.score (1/20) = true) :
    fuzzyMatch input candidates = none ∧
      ∀ (allowed : Option (List Str)) (boards : List NamedRec) (now : ℤ),
        boardAllowed allowed input = true →
        boards.map NamedRec.name = candidates →
        (∀ b ∈ boards, ¬ normName b.name = normName input) →
        (resolveBoardId input allowed boards none now).1 =
          .error (.ambiguous (candidates.take 10)) := by
  have hne : candidates ≠ [] := by
    intro h
    rw [h] at hscores
    simp [fuzzyScores, sortDesc] at hscores
  have hfm : fuzzyMatch input candidates = none := by
    cases candidates with
    | nil => exact absurd rfl hne
    | cons c cs =>
      have hgap' : jsAbsDiffLt best.score secondBest.score (mkRat 1 20) = true := by
        rw [mkRat_one_twenty]; exact hgap
      simp only [fuzzyMatch]
      rw [hscores]
      simp [hgap']
  refine ⟨hfm, ?_⟩
  intro allowed boards now hallow hnames hnoexact
  obtain ⟨b0, bs, rfl⟩ : ∃ b0 bs, boards = b0 :: bs := by
    cases boards with
    | nil =>
      exfalso
      apply hne
      simpa using hnames.symm
    | cons b0 bs => exact ⟨b0, bs, rfl⟩
  have hfind : (b0 :: bs).find? (fun b => normName b.name = normName input) = none := by
    rw [List.find?_eq_none]
    intro b hb
    simpa using hnoexact b hb
  simp only [resolveBoardId, hallow, if_true, resolveBoardIdCore]
  rw [hfind]
  simp only [hnames, hfm]

/-- Concrete instance of claim C1: candidates `"deva"`/`"devb"` both score
`3/4` against `"dev"` (gap `0 < 0.05`), so matching and resolution fail. -/
theorem claim1_witness :
    fuzzyMatch (chars "dev") [chars "deva", chars "devb"] = none ∧
      (resolveBoardId (chars "dev") none
        [⟨chars "b1", chars "deva"⟩, ⟨chars "b2", chars "devb"⟩] none 0).1 =
        .error (.ambiguous [chars "deva", chars "devb"]) := by
  have h := claim1_ambiguity_gap_returns_no_match (chars "dev")
    [chars "deva", chars "devb"]
    ⟨chars "deva", some (mkRat 3 4)⟩ ⟨chars "devb", some (mkRat 3 4)⟩ []
    (by decide) (by rw [← mkRat_one_twenty]; decide)
  refine ⟨h.1, ?_⟩
  have h2 := h.2 none [⟨chars "b1", chars "deva"⟩, ⟨chars "b2", chars "devb"⟩] 0
    (by decide) (by decide) (by decide)
  simpa using h2

/-- Claim C3: an exact (case/whitespace-insensitive) name match in the
fetched listing short-circuits fuzzy matching for boards and for lists
alike: resolution returns the id of the first such candidate with
`exactMatch = true`, whatever the other candidates look like. -/
theorem claim3_exact_match_short_circuit
    (name : Str) (allowed : Option (List Str)) (recs : List NamedRec)
    (cache : Option TrelloCache) (now : ℤ) (boardId : Str)
    (hallow : boardAllowed allowed name = true)
    (hmiss : ∀ c, cache = some c → (c.getBoardId now name).1 = none)
    (hmissL : ∀ c, cache = some c → (c.getListId now boardId name).1 = none)
    (hex : ∃ r ∈ recs, normName r.name = normName name) :
    (∃ r, recs.find? (fun b => normName b.name = normName name) = some r ∧
      normName r.name = normName name ∧
      (resolveBoardId name allowed recs cache now).1 = .ok ⟨r.id, true⟩) ∧
    (∃ r, recs.find? (fun l => normName l.name = normName name) = some r ∧
      normName r.name = normName name ∧
      (resolveListId boardId name recs cache now).1 = .ok ⟨r.id, true⟩) := by
  obtain ⟨r0, hr0, hr0n⟩ := hex
  have hne : recs ≠ [] := by
    intro h
    rw [h] at hr0
    simp at hr0
  obtain ⟨b0, bs, rfl⟩ : ∃ b0 bs, recs = b0 :: bs := by
    cases recs with
    | nil => exact absurd rfl hne
    | cons b0 bs => exact ⟨b0, bs, rfl⟩
  have hfound : ∃ r, (b0 :: bs).find? (fun b => normName b.name = normName name) = some r := by
    cases hfind : (b0 :: bs).find? (fun b => normName b.name = normName name) with
    | none =>
      rw [List.find?_eq_none] at hfind
      exact absurd (by simpa using hr0n) (by simpa using hfind r0 hr0)
    | some r => exact ⟨r, rfl⟩
  obtain ⟨r, hr⟩ := hfound
  have hrprop : normName r.name = normName name := by
    have := List.find?_some hr
    simpa using this
  constructor
  · refine ⟨r, hr, hrprop, ?_⟩
    cases cache with
    | none =>
      simp only [resolveBoardId, hallow, if_true, resolveBoardIdCore]
      rw [hr]
    | some c =>
      have hm := hmiss c rfl
      simp only [resolveBoardId, hallow, if_true]
      cases hget : c.getBoardId now name with
      | mk fst snd =>
        rw [hget] at hm
        simp at hm
        subst hm
        simp only [resolveBoardIdCore]
        rw [hr]
  · refine ⟨r, hr, hrprop, ?_⟩
    cases cache with
    | none =>
      simp only [resolveListId, resolveListIdCore]
      rw [hr]
    | some c =>
      have hm := hmissL c rfl
      simp only [resolveListId]
      cases hget : c.getListId now boardId name with
      | mk fst snd =>
        rw [hget] at hm
        simp at hm
        subst hm
        simp only [resolveListIdCore]
        rw [hr]

/-! ## Lemmas about the `Map` model and the cache -/

/-- Lookup at a matching head entry. -/
theorem assocLookup_cons_pos {β : Type} (p : Str × β) (m : List (Str × β)) (k : Str)
    (h : p.1 = k) : assocLookup (p :: m) k = some p.2 := by
  unfold assocLookup
  rw [List.find?_cons_of_pos _ (by simpa using h)]
  rfl

/-- Lookup skips a non-matching head entry. -/
theorem assocLookup_cons_neg {β : Type} (p : Str × β) (m : List (Str × β)) (k : Str)
    (h : ¬ p.1 = k) : assocLookup (p :: m) k = assocLookup m k := by
  unfold assocLookup
  rw [List.find?_cons_of_neg _ (by simpa using h)]

/-- In-place update: looking up the updated key yields the new value. -/
theorem assocLookup_map_set {β : Type} (m : List (Str × β)) (k : Str) (v : β)
    (h : (assocLookup m k).isSome = true) :
    assocLookup (m.map fun p => if p.1 = k then (k, v) else p) k = some v := by
  induction m with
  | nil => simp [assocLookup] at h
  | cons p m' ih =>
    simp only [List.map_cons]
    by_cases hk : p.1 = k
    · rw [if_pos hk, assocLookup_cons_pos _ _ _ rfl]
    · rw [if_neg hk, assocLookup_cons_neg _ _ _ hk]
      apply ih
      rwa [assocLookup_cons_neg _ _ _ hk] at h

/-- Append: looking up a freshly appended key yields its value. -/
theorem assocLookup_append_new {β : Type} (m : List (Str × β)) (k : Str) (v : β)
    (h : assocLookup m k = none) :
    assocLookup (m ++ [(k, v)]) k = some v := by
  induction m with
  | nil => exact assocLookup_cons_pos (k, v) [] k rfl
  | cons p m' ih =>
    by_cases hk : p.1 = k
    · rw [assocLookup_cons_pos _ _ _ hk] at h
      exact absurd h (by simp)
    · rw [List.cons_append, assocLookup_cons_neg _ _ _ hk]
      apply ih
      rwa [assocLookup_cons_neg _ _ _ hk] at h

/-- Looking up the key just set yields the value just set. -/
theorem assocLookup_set_self {β : Type} (m : List (Str × β)) (k : Str) (v : β) :
    assocLookup (assocSet m k v) k = some v := by
  unfold assocSet
  by_cases hm : (assocLookup m k).isSome
  · rw [if_pos hm]
    exact assocLookup_map_set m k v hm
  · rw [if_neg hm]
    exact assocLookup_append_new m k v (by
      cases h : assocLookup m k with
      | none => rfl
      | some w => rw [h] at hm; simp at hm)

/-- Looking up an erased key yields nothing. -/
theorem assocLookup_erase_self {β : Type} (m : List (Str × β)) (k : Str) :
    assocLookup (assocErase m k) k = none := by
  induction m with
  | nil => rfl
  | cons p m' ih =>
    by_cases hk : p.1 = k
    · simpa [assocErase, hk] using ih
    · simp only [assocErase, List.filter_cons, decide_not] at ih ⊢
      rw [if_pos (by simpa using hk), assocLookup_cons_neg _ _ _ hk]
      exact ih

/-- `getBoardId` never changes the TTL. -/
theorem getBoardId_ttlMs (c : TrelloCache) (now : ℤ) (name : Str) :
    ((c.getBoardId now name).2).ttlMs = c.ttlMs := by
  rcases h : assocLookup c.boardNameToId (normName name) with _ | e
  · simp [TrelloCache.getBoardId, h]
  · by_cases hv : c.isValid now (some e) = true
    · simp [TrelloCache.getBoardId, h, hv]
    · simp [TrelloCache.getBoardId, h, hv]

/-- `setBoardId` never changes the TTL. -/
theorem setBoardId_ttlMs (c : TrelloCache) (now : ℤ) (name boardId : Str) :
    (c.setBoardId now name boardId).ttlMs = c.ttlMs := rfl

/-- Claim C4: an entry stored at time `T` is returned by a read strictly
before `T + ttl`; a read at or after `T + ttl` reports absence and
physically removes the entry; validity is exactly `now - storedAt < ttl`;
and the TTL is fixed at construction (`ttlMinutes * 60 * 1000`) and never
changed by any operation. -/
theorem claim4_cache_ttl_semantics (c : TrelloCache) (name boardId : Str)
    (T now : ℤ) (e : CacheEntry) (ttlMinutes : ℤ) :
    (c.isValid now (some e) = true ↔ now - e.timestamp < c.ttlMs) ∧
    c.isValid now none = false ∧
    (now < T + c.ttlMs →
      (c.setBoardId T name boardId).getBoardId now name =
        (some boardId, c.setBoardId T name boardId)) ∧
    (T + c.ttlMs ≤ now →
      ((c.setBoardId T name boardId).getBoardId now name).1 = none ∧
      assocLookup (((c.setBoardId T name boardId).getBoardId now name).2).boardNameToId
        (normName name) = none) ∧
    (TrelloCache.create ttlMinutes).ttlMs = ttlMinutes * 60 * 1000 ∧
    (c.setBoardId T name boardId).ttlMs = c.ttlMs ∧
    ((c.getBoardId now name).2).ttlMs = c.ttlMs := by
  have hlook :
      assocLookup (c.setBoardId T name boardId).boardNameToId (normName name) =
        some ⟨boardId, T⟩ := by
    unfold TrelloCache.setBoardId
    exact assocLookup_set_self _ _ _
  refine ⟨?_, rfl, ?_, ?_, rfl, rfl, getBoardId_ttlMs c now name⟩
  · simp [TrelloCache.isValid]
  · intro hfresh
    have hvalid : (c.setBoardId T name boardId).isValid now (some ⟨boardId, T⟩) = true := by
      simp [TrelloCache.isValid, setBoardId_ttlMs]
      omega
    simp only [TrelloCache.getBoardId]
    rw [hlook]
    simp [hvalid]
  · intro hstale
    have hvalid : (c.setBoardId T name boardId).isValid now (some ⟨boardId, T⟩) = false := by
      simp [TrelloCache.isValid, setBoardId_ttlMs]
      omega
    simp only [TrelloCache.getBoardId]
    rw [hlook]
    simp only [hvalid, Bool.false_eq_true, if_false]
    exact ⟨trivial, assocLookup_erase_self _ _⟩

/-- Concrete instance of claim C4: a 5-minute cache, an entry stored at
`T = 0`, read at `299999` (hit) and at `300000` (miss and purge). -/
theorem claim4_witness :
    ((TrelloCache.create 5).setBoardId 0 (chars "My Board") (chars "b1")).getBoardId
        299999 (chars "My Board") =
      (some (chars "b1"),
        (TrelloCache.create 5).setBoardId 0 (chars "My Board") (chars "b1")) ∧
    (((TrelloCache.create 5).setBoardId 0 (chars "My Board") (chars "b1")).getBoardId
        300000 (chars "My Board")).1 = none ∧
    assocLookup ((((TrelloCache.create 5).setBoardId 0 (chars "My Board")
        (chars "b1")).getBoardId 300000 (chars "My Board")).2).boardNameToId
      (normName (chars "My Board")) = none := by
  have h1 := claim4_cache_ttl_semantics (TrelloCache.create 5) (chars "My Board")
    (chars "b1") 0 299999 ⟨chars "b1", 0⟩ 5
  have h2 := claim4_cache_ttl_semantics (TrelloCache.create 5) (chars "My Board")
    (chars "b1") 0 300000 ⟨chars "b1", 0⟩ 5
  exact ⟨h1.2.2.1 (by decide), (h2.2.2.2.1 (by decide)).1, (h2.2.2.2.1 (by decide)).2⟩

/-- Claim C9: when a cached board resolution is accepted via fuzzy matching,
the resolver stores the normalized requested name — not the matched
candidate's name — mapped to the matched id, stamped with the current time;
a second resolution of the same name within the TTL is then served from the
cache with `exactMatch = true`, whatever listing that second call would have
fetched. -/
theorem claim9_fuzzy_result_cached_under_requested_name
    (boardName : Str) (allowed : Option (List Str)) (boards : List NamedRec)
    (c0 c1 : TrelloCache) (now : ℤ) (m : FuzzyResult) (b : NamedRec)
    (hallow : boardAllowed allowed boardName = true)
    (hget : c0.getBoardId now boardName = (none, c1))
    (hnoexact : ∀ r ∈ boards, ¬ normName r.name = normName boardName)
    (hfm : fuzzyMatch boardName (boards.map (·.name)) = some m)
    (hscore : jsLt m.score (some (mkRat 4 5)) = false)
    (hfind : boards.find? (fun r => r.name = m.match_) = some b) :
    resolveBoardId boardName allowed boards (some c0) now =
      (.ok ⟨b.id, false⟩, some (c1.setBoardId now boardName b.id)) ∧
    assocLookup (c1.setBoardId now boardName b.id).boardNameToId
      (normName boardName) = some ⟨b.id, now⟩ ∧
    ∀ (now2 : ℤ) (boards2 : List NamedRec),
      now2 - now < c0.ttlMs →
      resolveBoardId boardName allowed boards2
          (some (c1.setBoardId now boardName b.id)) now2 =
        (.ok ⟨b.id, true⟩, some (c1.setBoardId now boardName b.id)) := by
  have hmem : b ∈ boards := List.mem_of_find?_eq_some hfind
  obtain ⟨b0, bs, rfl⟩ : ∃ b0 bs, boards = b0 :: bs := by
    cases boards with
    | nil => simp at hmem
    | cons b0 bs => exact ⟨b0, bs, rfl⟩
  have hfindex : (b0 :: bs).find? (fun r => normName r.name = normName boardName) = none := by
    rw [List.find?_eq_none]
    intro r hr
    simpa using hnoexact r hr
  have hstore :
      assocLookup (c1.setBoardId now boardName b.id).boardNameToId
        (normName boardName) = some ⟨b.id, now⟩ := by
    unfold TrelloCache.setBoardId
    exact assocLookup_set_self _ _ _
  have hres : resolveBoardId boardName allowed (b0 :: bs) (some c0) now =
      (.ok ⟨b.id, false⟩, some (c1.setBoardId now boardName b.id)) := by
    simp only [resolveBoardId, hallow, if_true, hget, resolveBoardIdCore]
    rw [hfindex]
    simp only [hfm, hscore, Bool.false_eq_true, if_false]
    rw [hfind]
    simp
  refine ⟨hres, hstore, ?_⟩
  intro now2 boards2 hfresh
  have httl : (c1.setBoardId now boardName b.id).ttlMs = c0.ttlMs := by
    rw [setBoardId_ttlMs]
    have := getBoardId_ttlMs c0 now boardName
    rw [hget] at this
    exact this
  have hvalid : (c1.setBoardId now boardName b.id).isValid now2
      (some ⟨b.id, now⟩) = true := by
    simp [TrelloCache.isValid, httl]
    omega
  have hhit : (c1.setBoardId now boardName b.id).getBoardId now2 boardName =
      (some b.id, c1.setBoardId now boardName b.id) := by
    simp only [TrelloCache.getBoardId]
    rw [hstore]
    simp [hvalid]
  simp only [resolveBoardId, hallow, if_true, hhit]

/-- Concrete instance of claim C9: the spec's scenario — `"Markting"`
resolved against a single board `"Marketing"` (score `8/9 ≥ 0.8`), then
re-resolved a second later from the cache, even against an empty listing. -/
theorem claim9_witness :
    resolveBoardId (chars "Markting") none [⟨chars "b1", chars "Marketing"⟩]
        (some (TrelloCache.create 5)) 0 =
      (.ok ⟨chars "b1", false⟩,
        some ((TrelloCache.create 5).setBoardId 0 (chars "Markting") (chars "b1"))) ∧
    assocLookup ((TrelloCache.create 5).setBoardId 0 (chars "Markting")
        (chars "b1")).boardNameToId (normName (chars "Markting")) =
      some ⟨chars "b1", 0⟩ ∧
    resolveBoardId (chars "Markting") none []
        (some ((TrelloCache.create 5).setBoardId 0 (chars "Markting") (chars "b1"))) 1000 =
      (.ok ⟨chars "b1", true⟩,
        some ((TrelloCache.create 5).setBoardId 0 (chars "Markting") (chars "b1"))) := by
  have h := claim9_fuzzy_result_cached_under_requested_name
    (chars "Markting") none [⟨chars "b1", chars "Marketing"⟩]
    (TrelloCache.create 5) (TrelloCache.create 5) 0
    ⟨chars "Marketing", some (mkRat 8 9)⟩ ⟨chars "b1", chars "Marketing"⟩
    (by decide) (by decide) (by decide) (by decide) (by decide) (by decide)
  exact ⟨h.1, h.2.1, h.2.2 1000 [] (by decide)⟩

/-- Every error the board-resolution core can produce: an empty listing, the
ambiguity error carrying the first ten names, the low-confidence error
carrying the first five names, or the unreachable internal case. -/
theorem resolveBoardIdCore_errors (name : Str) (recs : List NamedRec)
    (cache : Option TrelloCache) (now : ℤ) (e : ResolveErr)
    (h : (resolveBoardIdCore name recs cache now).1 = .error e) :
    e = .notFoundEmpty ∨ e = .ambiguous ((recs.map (·.name)).take 10) ∨
      e = .noConfident ((recs.map (·.name)).take 5) ∨ e = .internalNoMatch := by
  cases recs with
  | nil =>
    simp only [resolveBoardIdCore] at h
    simp at h
    simp [h]
  | cons r rs =>
    simp only [resolveBoardIdCore] at h
    split at h
    · simp at h
    · split at h
      · simp at h
        simp [h]
      · split at h
        · simp at h
          simp [h]
        · split at h
          · simp at h
          · simp at h
            simp [h]

/-- Every error the list-resolution core can produce: both name-carrying
errors interpolate the full candidate list. -/
theorem resolveListIdCore_errors (boardId name : Str) (recs : List NamedRec)
    (cache : Option TrelloCache) (now : ℤ) (e : ResolveErr)
    (h : (resolveListIdCore boardId name recs cache now).1 = .error e) :
    e = .notFoundEmpty ∨ e = .ambiguous (recs.map (·.name)) ∨
      e = .noConfident (recs.map (·.name)) ∨ e = .internalNoMatch := by
  cases recs with
  | nil =>
    simp only [resolveListIdCore] at h
    simp at h
    simp [h]
  | cons r rs =>
    simp only [resolveListIdCore] at h
    split at h
    · simp at h
    · split at h
      · simp at h
        simp [h]
      · split at h
        · simp at h
          simp [h]
        · split at h
          · simp at h
          · simp at h
            simp [h]

/-- Any error from `resolveBoardId` is the access-guard error or comes from
the core over some cache state. -/
theorem resolveBoardId_err_from_core (name : Str) (allowed : Option (List Str))
    (recs : List NamedRec) (cache : Option TrelloCache) (now : ℤ) (e : ResolveErr)
    (h : (resolveBoardId name allowed recs cache now).1 = .error e) :
    e = .accessDenied ∨
      ∃ cache', (resolveBoardIdCore name recs cache' now).1 = .error e := by
  simp only [resolveBoardId] at h
  split at h
  · split at h
    · split at h
      · simp at h
      · exact .inr ⟨_, h⟩
    · exact .inr ⟨_, h⟩
  · simp at h
    simp [h]

/-- Any error from `resolveListId` comes from the core over some cache
state. -/
theorem resolveListId_err_from_core (boardId name : Str) (recs : List NamedRec)
    (cache : Option TrelloCache) (now : ℤ) (e : ResolveErr)
    (h : (resolveListId boardId name recs cache now).1 = .error e) :
    ∃ cache', (resolveListIdCore boardId name recs cache' now).1 = .error e := by
  simp only [resolveListId] at h
  split at h
  · split at h
    · simp at h
    · exact ⟨_, h⟩
  · exact ⟨_, h⟩

/-- Claim C5 (counterexample): list resolution with six candidate lists and
no confident match surfaces all six names — more than the claimed bound of
five. -/
theorem claim5_list_failure_exceeds_bound :
    (resolveListId (chars "board1") (chars "abcdef")
      [⟨chars "l1", chars "abcxyz"⟩, ⟨chars "l2", chars "qwerty"⟩,
       ⟨chars "l3", chars "zxcvbn"⟩, ⟨chars "l4", chars "poiuyt"⟩,
       ⟨chars "l5", chars "lkjhgf"⟩, ⟨chars "l6", chars "mnbvcx"⟩] none 0).1 =
      .error (.noConfident
        [chars "abcxyz", chars "qwerty", chars "zxcvbn", chars "poiuyt",
         chars "lkjhgf", chars "mnbvcx"]) ∧
    ¬ ([chars "abcxyz", chars "qwerty", chars "zxcvbn", chars "poiuyt",
        chars "lkjhgf", chars "mnbvcx"] : List Str).length ≤ 5 := by
  decide

/-- Claim C5 (amended): board-resolution failures are bounded — the
low-confidence error carries the first five listed names and the ambiguity
error the first ten — but list-resolution failures interpolate the full
candidate list, unbounded. -/
theorem claim5_candidate_bounds (name boardId : Str) (allowed : Option (List Str))
    (recs : List NamedRec) (cache : Option TrelloCache) (now : ℤ) (shown : List Str) :
    ((resolveBoardId name allowed recs cache now).1 = .error (.noConfident shown) →
      shown = (recs.map (·.name)).take 5 ∧ shown.length ≤ 5) ∧
    ((resolveBoardId name allowed recs cache now).1 = .error (.ambiguous shown) →
      shown = (recs.map (·.name)).take 10 ∧ shown.length ≤ 10) ∧
    ((resolveListId boardId name recs cache now).1 = .error (.noConfident shown) →
      shown = recs.map (·.name)) ∧
    ((resolveListId boardId name recs cache now).1 = .error (.ambiguous shown) →
      shown = recs.map (·.name)) := by
  refine ⟨fun h => ?_, fun h => ?_, fun h => ?_, fun h => ?_⟩
  · rcases resolveBoardId_err_from_core _ _ _ _ _ _ h with hacc | ⟨cache', hc⟩
    · simp at hacc
    · rcases resolveBoardIdCore_errors _ _ _ _ _ hc with h1 | h1 | h1 | h1 <;>
        simp at h1
      rw [h1]
      exact ⟨rfl, List.length_take_le 5 _⟩
  · rcases resolveBoardId_err_from_core _ _ _ _ _ _ h with hacc | ⟨cache', hc⟩
    · simp at hacc
    · rcases resolveBoardIdCore_errors _ _ _ _ _ hc with h1 | h1 | h1 | h1 <;>
        simp at h1
      rw [h1]
      exact ⟨rfl, List.length_take_le 10 _⟩
  · rcases resolveListId_err_from_core _ _ _ _ _ _ h with ⟨cache', hc⟩
    rcases resolveListIdCore_errors _ _ _ _ _ _ hc with h1 | h1 | h1 | h1 <;>
      simp at h1
    exact h1
  · rcases resolveListId_err_from_core _ _ _ _ _ _ h with ⟨cache', hc⟩
    rcases resolveListIdCore_errors _ _ _ _ _ _ hc with h1 | h1 | h1 | h1 <;>
      simp at h1
    exact h1

/-- Concrete instance of claim C5's amended theorem: the same six-candidate
scenario, on the board side (first five names shown) and the list side (all
six names shown). -/
theorem claim5_witness :
    ([chars "abcxyz", chars "qwerty", chars "zxcvbn", chars "poiuyt",
      chars "lkjhgf"] : List Str) =
      (([⟨chars "l1", chars "abcxyz"⟩, ⟨chars "l2", chars "qwerty"⟩,
        ⟨chars "l3", chars "zxcvbn"⟩, ⟨chars "l4", chars "poiuyt"⟩,
        ⟨chars "l5", chars "lkjhgf"⟩, ⟨chars "l6", chars "mnbvcx"⟩] :
          List NamedRec).map (·.name)).take 5 ∧
    ([chars "abcxyz", chars "qwerty", chars "zxcvbn", chars "poiuyt",
      chars "lkjhgf", chars "mnbvcx"] : List Str) =
      ([⟨chars "l1", chars "abcxyz"⟩, ⟨chars "l2", chars "qwerty"⟩,
        ⟨chars "l3", chars "zxcvbn"⟩, ⟨chars "l4", chars "poiuyt"⟩,
        ⟨chars "l5", chars "lkjhgf"⟩, ⟨chars "l6", chars "mnbvcx"⟩] :
          List NamedRec).map (·.name) := by
  refine ⟨((claim5_candidate_bounds (chars "abcdef") (chars "board1") none
    [⟨chars "l1", chars "abcxyz"⟩, ⟨chars "l2", chars "qwerty"⟩,
     ⟨chars "l3", chars "zxcvbn"⟩, ⟨chars "l4", chars "poiuyt"⟩,
     ⟨chars "l5", chars "lkjhgf"⟩, ⟨chars "l6", chars "mnbvcx"⟩] none 0
    [chars "abcxyz", chars "qwerty", chars "zxcvbn", chars "poiuyt",
     chars "lkjhgf"]).1 (by decide)).1, ?_⟩
  exact (claim5_candidate_bounds (chars "abcdef") (chars "board1") none
    [⟨chars "l1", chars "abcxyz"⟩, ⟨chars "l2", chars "qwerty"⟩,
     ⟨chars "l3", chars "zxcvbn"⟩, ⟨chars "l4", chars "poiuyt"⟩,
     ⟨chars "l5", chars "lkjhgf"⟩, ⟨chars "l6", chars "mnbvcx"⟩] none 0
    [chars "abcxyz", chars "qwerty", chars "zxcvbn", chars "poiuyt",
     chars "lkjhgf", chars "mnbvcx"]).2.2.1 (by decide)

/-- Claim C6: card resolution searches first and falls back to the full
open-card listing on zero results, where it applies exact matching, then
fuzzy matching accepted only at score `≥ 0.9`, failing otherwise; with
several search results it prefers an exact (case-insensitive) name match
and otherwise takes the first (most relevant) result. -/
theorem claim6_card_resolution_policy
    (cardName : Str) (searchCards : List SearchCard) (listing : List ListedCard) :
    (searchCards = [] →
      resolveCardId cardName searchCards listing =
        resolveCardIdFromBoardListing cardName listing) ∧
    (∀ c, listing ≠ [] →
      listing.find? (fun c =>
        match c.name with
        | some s => normName s = normName cardName
        | none => false) = some c →
      resolveCardIdFromBoardListing cardName listing = .ok ⟨c.id, c.name.getD []⟩) ∧
    (∀ m c, listing ≠ [] →
      listing.find? (fun c =>
        match c.name with
        | some s => normName s = normName cardName
        | none => false) = none →
      fuzzyMatch cardName (listing.filterMap (·.name)) = some m →
      jsGe m.score (some (mkRat 9 10)) = true →
      listing.find? (fun c => c.name = some m.match_) = some c →
      resolveCardIdFromBoardListing cardName listing = .ok ⟨c.id, c.name.getD []⟩) ∧
    (listing ≠ [] →
      listing.find? (fun c =>
        match c.name with
        | some s => normName s = normName cardName
        | none => false) = none →
      (∀ m, fuzzyMatch cardName (listing.filterMap (·.name)) = some m →
        jsGe m.score (some (mkRat 9 10)) = false) →
      resolveCardIdFromBoardListing cardName listing = .error .notFoundAfterFallback) ∧
    (∀ c0 c1 cs c, searchCards = c0 :: c1 :: cs →
      searchCards.find? (fun c => normName c.name = normName cardName) = some c →
      resolveCardId cardName searchCards listing = .ok ⟨c.id, c.name⟩) ∧
    (∀ c0 c1 cs, searchCards = c0 :: c1 :: cs →
      searchCards.find? (fun c => normName c.name = normName cardName) = none →
      resolveCardId cardName searchCards listing = .ok ⟨c0.id, c0.name⟩) := by
  refine ⟨?_, ?_, ?_, ?_, ?_, ?_⟩
  · intro h
    subst h
    rfl
  · intro c hne hfind
    obtain ⟨l0, ls, rfl⟩ : ∃ l0 ls, listing = l0 :: ls := by
      cases listing with
      | nil => exact absurd rfl hne
      | cons l0 ls => exact ⟨l0, ls, rfl⟩
    simp only [resolveCardIdFromBoardListing]
    rw [hfind]
  · intro m c hne hnoexact hfm hscore hfind
    obtain ⟨l0, ls, rfl⟩ : ∃ l0 ls, listing = l0 :: ls := by
      cases listing with
      | nil => exact absurd rfl hne
      | cons l0 ls => exact ⟨l0, ls, rfl⟩
    simp only [resolveCardIdFromBoardListing]
    rw [hnoexact]
    simp only [hfm, hscore, if_true]
    rw [hfind]
  · intro hne hnoexact hlow
    obtain ⟨l0, ls, rfl⟩ : ∃ l0 ls, listing = l0 :: ls := by
      cases listing with
      | nil => exact absurd rfl hne
      | cons l0 ls => exact ⟨l0, ls, rfl⟩
    simp only [resolveCardIdFromBoardListing]
    rw [hnoexact]
    rcases hm : fuzzyMatch cardName ((l0 :: ls).filterMap (·.name)) with _ | m
    · rw [hm]
    · rw [hm]
      have := hlow m hm
      simp [this]
  · intro c0 c1 cs c hsc hfind
    subst hsc
    simp only [resolveCardId]
    rw [hfind]
  · intro c0 c1 cs hsc hfind
    subst hsc
    simp only [resolveCardId]
    rw [hfind]

/-- Concrete instances of each branch of claim C6's theorem. -/
theorem claim6_witness :
    resolveCardId (chars "x") [] [⟨chars "c1", some (chars "x")⟩] =
      resolveCardIdFromBoardListing (chars "x") [⟨chars "c1", some (chars "x")⟩] ∧
    resolveCardIdFromBoardListing (chars "deploy")
      [⟨chars "c1", some (chars "Deploy")⟩, ⟨chars "c2", some (chars "Other")⟩] =
      .ok ⟨chars "c1", chars "Deploy"⟩ ∧
    resolveCardIdFromBoardListing (chars "deploy prod")
      [⟨chars "c1", some (chars "Deploy Prodd")⟩, ⟨chars "c2", some (chars "zzzz")⟩] =
      .ok ⟨chars "c1", chars "Deploy Prodd"⟩ ∧
    resolveCardIdFromBoardListing (chars "abc")
      [⟨chars "c1", some (chars "abcdxy")⟩, ⟨chars "c2", some (chars "qwe")⟩] =
      .error .notFoundAfterFallback ∧
    resolveCardId (chars "beta")
      [⟨chars "s1", chars "Alpha"⟩, ⟨chars "s2", chars "Beta"⟩] [] =
      .ok ⟨chars "s2", chars "Beta"⟩ ∧
    resolveCardId (chars "gamma")
      [⟨chars "s1", chars "Alpha"⟩, ⟨chars "s2", chars "Beta"⟩] [] =
      .ok ⟨chars "s1", chars "Alpha"⟩ := by
  refine ⟨(claim6_card_resolution_policy (chars "x") []
      [⟨chars "c1", some (chars "x")⟩]).1 rfl, ?_, ?_, ?_, ?_, ?_⟩
  · exact (claim6_card_resolution_policy (chars "deploy") []
      [⟨chars "c1", some (chars "Deploy")⟩, ⟨chars "c2", some (chars "Other")⟩]).2.1
      ⟨chars "c1", some (chars "Deploy")⟩ (by decide) (by decide)
  · exact (claim6_card_resolution_policy (chars "deploy prod") []
      [⟨chars "c1", some (chars "Deploy Prodd")⟩, ⟨chars "c2", some (chars "zzzz")⟩]).2.2.1
      ⟨chars "Deploy Prodd", some (mkRat 11 12)⟩ ⟨chars "c1", some (chars "Deploy Prodd")⟩
      (by decide) (by decide) (by decide) (by decide) (by decide)
  · refine (claim6_card_resolution_policy (chars "abc") []
      [⟨chars "c1", some (chars "abcdxy")⟩, ⟨chars "c2", some (chars "qwe")⟩]).2.2.2.1
      (by decide) (by decide) ?_
    intro m hm
    rw [show fuzzyMatch (chars "abc")
        (([⟨chars "c1", some (chars "abcdxy")⟩, ⟨chars "c2", some (chars "qwe")⟩] :
          List ListedCard).filterMap (·.name)) =
        some ⟨chars "abcdxy", some (mkRat 1 2)⟩ from by decide] at hm
    cases hm
    decide
  · exact (claim6_card_resolution_policy (chars "beta")
      [⟨chars "s1", chars "Alpha"⟩, ⟨chars "s2", chars "Beta"⟩] []).2.2.2.2.1
      ⟨chars "s1", chars "Alpha"⟩ ⟨chars "s2", chars "Beta"⟩ []
      ⟨chars "s2", chars "Beta"⟩ rfl (by decide)
  · exact (claim6_card_resolution_policy (chars "gamma")
      [⟨chars "s1", chars "Alpha"⟩, ⟨chars "s2", chars "Beta"⟩] []).2.2.2.2.2
      ⟨chars "s1", chars "Alpha"⟩ ⟨chars "s2", chars "Beta"⟩ [] rfl (by decide)

/-! ## Lemmas about the snapshot stitching step -/

/-- In-place update leaves other keys alone. -/
theorem assocLookup_map_set_other {β : Type} (m : List (Str × β)) (k k' : Str) (v : β)
    (hne : ¬ k' = k) :
    assocLookup (m.map fun p => if p.1 = k then (k, v) else p) k' = assocLookup m k' := by
  induction m with
  | nil => rfl
  | cons p m' ih =>
    simp only [List.map_cons]
    by_cases hk : p.1 = k
    · rw [if_pos hk, assocLookup_cons_neg (k, v) _ k' (fun h => hne h.symm),
        assocLookup_cons_neg _ _ _ (fun h => hne (h.symm.trans hk))]
      exact ih
    · rw [if_neg hk]
      by_cases hk' : p.1 = k'
      · rw [assocLookup_cons_pos _ _ _ hk', assocLookup_cons_pos _ _ _ hk']
      · rw [assocLookup_cons_neg _ _ _ hk', assocLookup_cons_neg _ _ _ hk']
        exact ih

/-- Appending a fresh entry leaves other keys alone. -/
theorem assocLookup_append_other {β : Type} (m : List (Str × β)) (k k' : Str) (v : β)
    (hne : ¬ k' = k) :
    assocLookup (m ++ [(k, v)]) k' = assocLookup m k' := by
  induction m with
  | nil =>
    simp only [List.nil_append]
    rw [assocLookup_cons_neg (k, v) _ k' (fun h => hne h.symm)]
  | cons p m' ih =>
    by_cases hk' : p.1 = k'
    · rw [List.cons_append, assocLookup_cons_pos _ _ _ hk', assocLookup_cons_pos _ _ _ hk']
    · rw [List.cons_append, assocLookup_cons_neg _ _ _ hk', assocLookup_cons_neg _ _ _ hk']
      exact ih

/-- `assocSet` leaves other keys alone. -/
theorem assocLookup_set_other {β : Type} (m : List (Str × β)) (k k' : Str) (v : β)
    (hne : ¬ k' = k) :
    assocLookup (assocSet m k v) k' = assocLookup m k' := by
  unfold assocSet
  split
  · exact assocLookup_map_set_other m k k' v hne
  · exact assocLookup_append_other m k k' v hne

/-- The group the card index accumulates under key `k`, over any starting
accumulator, is the accumulated group followed by the cards keyed `k`. -/
theorem cardsByList_foldl (k : Str) (cards : List JVal) :
    ∀ acc : List (Str × List JVal),
      (assocLookup (cards.foldl cardsByListStep acc) k).getD [] =
        (assocLookup acc k).getD [] ++ cardsWithListKey cards k := by
  induction cards with
  | nil =>
    intro acc
    simp [cardsWithListKey]
  | cons c cs ih =>
    intro acc
    simp only [List.foldl_cons]
    rw [ih (cardsByListStep acc c)]
    unfold cardsWithListKey
    rcases hk : cardListKey c with _ | k'
    · simp only [cardsByListStep, hk]
      rw [List.filter_cons_of_neg (by simp [hk])]
    · by_cases hkk : k' = k
      · subst hkk
        rw [List.filter_cons_of_pos (by simp [hk])]
        simp only [cardsByListStep, hk]
        rcases hacc : assocLookup acc k' with _ | g
        · rw [assocLookup_append_new acc k' [c] hacc]
          simp [cardsWithListKey]
        · rw [assocLookup_set_self acc k' (g ++ [c])]
          simp [hacc, cardsWithListKey]
      · rw [List.filter_cons_of_neg (by simp [hk, hkk])]
        rcases hacc : assocLookup acc k' with _ | g
        · have hstep : cardsByListStep acc c = acc ++ [(k', [c])] := by
            simp [cardsByListStep, hk, hacc]
          rw [hstep, assocLookup_append_other acc k' k [c] (fun h => hkk h.symm)]
        · have hstep : cardsByListStep acc c = assocSet acc k' (g ++ [c]) := by
            simp [cardsByListStep, hk, hacc]
          rw [hstep, assocLookup_set_other acc k' k (g ++ [c]) (fun h => hkk h.symm)]

/-- The card index groups exactly the cards keyed by each list id. -/
theorem cardsByList_lookup (cards : List JVal) (k : Str) :
    (assocLookup (cardsByList cards) k).getD [] = cardsWithListKey cards k := by
  unfold cardsByList
  rw [cardsByList_foldl k cards []]
  rfl

/-- Property access succeeds on everything except `null`/`undefined`. -/
theorem jget_ok (v : JVal) (k : Str) (h1 : v ≠ .null) (h2 : v ≠ .undefined) :
    jget v k = .ok (jgetTotal v k) := by
  cases v with
  | null => exact absurd rfl h1
  | undefined => exact absurd rfl h2
  | bool b => rfl
  | num q => rfl
  | str s => rfl
  | arr xs => rfl
  | obj fs => rfl

/-- The `cards` field of a stitched list is exactly the attached group. -/
theorem withCards_cards_field (l : JVal) (g : List JVal) :
    jgetTotal (withCards l g) (chars "cards") = .arr g := by
  cases l with
  | obj fs =>
    simp only [withCards, jgetTotal]
    rw [assocLookup_set_self]
    rfl
  | null => simp [withCards, jgetTotal, assocLookup]
  | undefined => simp [withCards, jgetTotal, assocLookup]
  | bool b => simp [withCards, jgetTotal, assocLookup]
  | num q => simp [withCards, jgetTotal, assocLookup]
  | str s => simp [withCards, jgetTotal, assocLookup]
  | arr xs => simp [withCards, jgetTotal, assocLookup]

/-- `Except.ok` bound into a continuation reduces to the continuation. -/
theorem exceptOk_bind {eps a b : Type} (x : a) (f : a → Except eps b) :
    (Except.ok x >>= f : Except eps b) = f x := rfl

/-- `pure` into `Except` is `Except.ok`. -/
theorem exceptPure_eq_ok {eps a : Type} (x : a) :
    (pure x : Except eps a) = Except.ok x := rfl

/-- The stitching map succeeds on non-null lists and attaches to each list
exactly its keyed partition. -/
theorem stitchCards_eq (cards : List JVal) :
    ∀ (lists : List JVal), (∀ l ∈ lists, l ≠ .null ∧ l ≠ .undefined) →
      stitchCards lists cards =
        .ok (lists.map fun l => withCards l (listAttachedCards cards l)) := by
  intro lists
  induction lists with
  | nil => intro _; rfl
  | cons l ls ih =>
    intro hok
    have hl := hok l (List.mem_cons_self l ls)
    have hrest : ∀ x ∈ ls, x ≠ .null ∧ x ≠ .undefined :=
      fun x hx => hok x (List.mem_cons_of_mem l hx)
    have ihls := ih hrest
    simp only [stitchCards] at ihls ⊢
    rw [List.mapM_cons]
    rw [jget_ok l (chars "id") hl.1 hl.2]
    rw [ihls]
    rcases hid : jgetTotal l (chars "id") with _ | _ | b | q | s | xs | fs <;>
      simp [listAttachedCards, hid, cardsByList_lookup, exceptOk_bind]

/-- Claim C7: with a flat card array next to a flat list array, the
stitching step attaches to every (non-null) list exactly the cards whose
truthy `idList` equals that list's id; a card without an `idList` pointer
is attached to no list; and with pairwise-distinct list ids no card is
attached to two different lists. -/
theorem claim7_partition_attach (lists cards : List JVal)
    (hok : ∀ l ∈ lists, l ≠ .null ∧ l ≠ .undefined) :
    stitchCards lists cards =
      .ok (lists.map fun l => withCards l (listAttachedCards cards l)) ∧
    (∀ l ∈ lists,
      jgetTotal (withCards l (listAttachedCards cards l)) (chars "cards") =
        .arr (listAttachedCards cards l)) ∧
    (∀ c, cardListKey c = none → ∀ l ∈ lists, c ∉ listAttachedCards cards l) ∧
    ((lists.map fun l => jgetTotal l (chars "id")).Nodup →
      ∀ c l1 l2, l1 ∈ lists → l2 ∈ lists → c ∈ listAttachedCards cards l1 →
        c ∈ listAttachedCards cards l2 → l1 = l2) := by
  have hkey : ∀ (c : JVal) (l : JVal), c ∈ listAttachedCards cards l →
      ∃ s, jgetTotal l (chars "id") = .str s ∧ cardListKey c = some s := by
    intro c l hm
    unfold listAttachedCards at hm
    rcases hid : jgetTotal l (chars "id") with _ | _ | b | q | s | xs | fs <;>
      rw [hid] at hm <;> simp only [] at hm
    · cases hm
    · cases hm
    · cases hm
    · cases hm
    · refine ⟨s, rfl, ?_⟩
      unfold cardsWithListKey at hm
      have := List.of_mem_filter hm
      simpa using this
    · cases hm
    · cases hm
  refine ⟨stitchCards_eq cards lists hok, ?_, ?_, ?_⟩
  · intro l _
    exact withCards_cards_field l _
  · intro c hnone l hl hm
    obtain ⟨s, _, hck⟩ := hkey c l hm
    rw [hnone] at hck
    cases hck
  · intro hnd c l1 l2 h1 h2 hm1 hm2
    obtain ⟨s1, hid1, hck1⟩ := hkey c l1 hm1
    obtain ⟨s2, hid2, hck2⟩ := hkey c l2 hm2
    have hs : s1 = s2 := by
      rw [hck1] at hck2
      simpa using hck2
    exact List.inj_on_of_nodup_map hnd h1 h2 (by rw [hid1, hid2, hs])

/-- Concrete instance of claim C7: two lists, three pointed cards and one
card without a pointer. -/
theorem claim7_witness :
    stitchCards
        [.obj [(chars "id", .str (chars "l1"))], .obj [(chars "id", .str (chars "l2"))]]
        [.obj [(chars "id", .str (chars "c1")), (chars "idList", .str (chars "l1"))],
         .obj [(chars "id", .str (chars "c2")), (chars "idList", .str (chars "l2"))],
         .obj [(chars "id", .str (chars "c3")), (chars "idList", .str (chars "l1"))],
         .obj [(chars "id", .str (chars "c4"))]] =
      .ok ([.obj [(chars "id", .str (chars "l1"))],
            .obj [(chars "id", .str (chars "l2"))]].map fun l =>
        withCards l (listAttachedCards
          [.obj [(chars "id", .str (chars "c1")), (chars "idList", .str (chars "l1"))],
           .obj [(chars "id", .str (chars "c2")), (chars "idList", .str (chars "l2"))],
           .obj [(chars "id", .str (chars "c3")), (chars "idList", .str (chars "l1"))],
           .obj [(chars "id", .str (chars "c4"))]] l)) ∧
    listAttachedCards
        [.obj [(chars "id", .str (chars "c1")), (chars "idList", .str (chars "l1"))],
         .obj [(chars "id", .str (chars "c2")), (chars "idList", .str (chars "l2"))],
         .obj [(chars "id", .str (chars "c3")), (chars "idList", .str (chars "l1"))],
         .obj [(chars "id", .str (chars "c4"))]]
        (.obj [(chars "id", .str (chars "l1"))]) =
      [.obj [(chars "id", .str (chars "c1")), (chars "idList", .str (chars "l1"))],
       .obj [(chars "id", .str (chars "c3")), (chars "idList", .str (chars "l1"))]] ∧
    (.obj [(chars "id", .str (chars "c4"))] : JVal) ∉
      listAttachedCards
        [.obj [(chars "id", .str (chars "c1")), (chars "idList", .str (chars "l1"))],
         .obj [(chars "id", .str (chars "c2")), (chars "idList", .str (chars "l2"))],
         .obj [(chars "id", .str (chars "c3")), (chars "idList", .str (chars "l1"))],
         .obj [(chars "id", .str (chars "c4"))]]
        (.obj [(chars "id", .str (chars "l1"))]) := by
  have h := claim7_partition_attach
    [.obj [(chars "id", .str (chars "l1"))], .obj [(chars "id", .str (chars "l2"))]]
    [.obj [(chars "id", .str (chars "c1")), (chars "idList", .str (chars "l1"))],
     .obj [(chars "id", .str (chars "c2")), (chars "idList", .str (chars "l2"))],
     .obj [(chars "id", .str (chars "c3")), (chars "idList", .str (chars "l1"))],
     .obj [(chars "id", .str (chars "c4"))]]
    (by
      intro l hl
      simp only [List.mem_cons, List.not_mem_nil, or_false] at hl
      rcases hl with rfl | rfl <;> exact ⟨by simp, by simp⟩)
  refine ⟨h.1, rfl, ?_⟩
  exact h.2.2.1 (.obj [(chars "id", .str (chars "c4"))]) rfl
    (.obj [(chars "id", .str (chars "l1"))]) (by simp)

/-! ## Lemmas and claims about normalization robustness -/

/-- A missing or `null` member array contributes no members. -/
theorem cardMembers_nullish (v : JVal) (mm : Option JMap)
    (h : v = .undefined ∨ v = .null) : cardMembers v mm = [] := by
  rcases h with rfl | rfl <;> rfl

/-- A missing or `null` label array contributes no labels. -/
theorem cardLabels_nullish (v : JVal) (lm : Option JMap)
    (h : v = .undefined ∨ v = .null) : cardLabels v lm = .ok [] := by
  rcases h with rfl | rfl <;> rfl

/-- `a || b` falls through to `b` on a missing or `null` left operand. -/
theorem jor_nullish (v d : JVal) (h : v = .undefined ∨ v = .null) : jor v d = d := by
  rcases h with rfl | rfl <;> rfl

/-- No checklists at all count as `"0/0"`. -/
theorem calculateChecklistStatus_empty :
    calculateChecklistStatus (.arr []) = .ok (chars "0/0") := rfl

/-- Claim C8 (counterexample): normalization does raise on a `null` entity —
a raw list whose `cards` array contains `null` makes `cleanCard` read
`null.idMembers`, a `TypeError`. -/
theorem claim8_null_entity_raises :
    cleanTrelloResponse (.obj [(chars "cards", .arr [.null])]) = .error () := rfl

/-- Claim C8 (amended): normalization never raises on an object payload
whose optional fields are merely missing or `null` — it fills the
documented defaults (`''`, `null`, `false`, empty arrays, `"0/0"`) — and
the dispatcher passes a `null` payload through unchanged; but a `null`
entity nested inside an entity array raises a `TypeError`
(see the counterexample). -/
theorem claim8_missing_fields_defaults (fs : List (Str × JVal))
    (memberMap labelMap : Option JMap)
    (hidm : assocLookup fs (chars "idMembers") = none ∨
      assocLookup fs (chars "idMembers") = some .null)
    (hlab : assocLookup fs (chars "labels") = none ∨
      assocLookup fs (chars "labels") = some .null)
    (hcls : assocLookup fs (chars "checklists") = none ∨
      assocLookup fs (chars "checklists") = some .null)
    (hnam : assocLookup fs (chars "name") = none ∨
      assocLookup fs (chars "name") = some .null)
    (hdes : assocLookup fs (chars "desc") = none ∨
      assocLookup fs (chars "desc") = some .null)
    (hdue : assocLookup fs (chars "due") = none ∨
      assocLookup fs (chars "due") = some .null)
    (hurl : assocLookup fs (chars "url") = none ∨
      assocLookup fs (chars "url") = some .null)
    (hsrl : assocLookup fs (chars "shortUrl") = none ∨
      assocLookup fs (chars "shortUrl") = some .null)
    (hclo : assocLookup fs (chars "closed") = none ∨
      assocLookup fs (chars "closed") = some .null) :
    cleanCard (.obj fs) memberMap labelMap =
      .ok (.obj
        [ (chars "id", (assocLookup fs (chars "id")).getD .undefined)
        , (chars "name", .str [])
        , (chars "desc", .str [])
        , (chars "due", .null)
        , (chars "labels", .arr [])
        , (chars "members", .arr [])
        , (chars "checklistStatus", .str (chars "0/0"))
        , (chars "url", .str [])
        , (chars "closed", .bool false) ]) ∧
    cleanTrelloResponse .null = .ok .null := by
  have g : ∀ (k : Str), (assocLookup fs k = none ∨ assocLookup fs k = some .null) →
      jgetTotal (.obj fs) k = .undefined ∨ jgetTotal (.obj fs) k = .null := by
    intro k h
    rcases h with h | h <;> simp [jgetTotal, h]
  refine ⟨?_, rfl⟩
  simp only [cleanCard, jget, exceptOk_bind]
  rw [cardMembers_nullish _ _ (g _ hidm), cardLabels_nullish _ _ (g _ hlab)]
  simp only [exceptOk_bind]
  rw [jor_nullish _ _ (g _ hcls), calculateChecklistStatus_empty]
  simp only [exceptOk_bind]
  rw [jor_nullish _ _ (g _ hnam), jor_nullish _ _ (g _ hdes),
    jor_nullish _ _ (g _ hdue), jor_nullish _ _ (g _ hsrl),
    jor_nullish _ _ (g _ hurl), jor_nullish _ _ (g _ hclo)]
  rfl

/-- Concrete instance of claim C8's amended theorem: a card carrying only an
id. -/
theorem claim8_witness :
    cleanCard (.obj [(chars "id", .str (chars "c1"))]) none none =
      .ok (.obj
        [ (chars "id", .str (chars "c1"))
        , (chars "name", .str [])
        , (chars "desc", .str [])
        , (chars "due", .null)
        , (chars "labels", .arr [])
        , (chars "members", .arr [])
        , (chars "checklistStatus", .str (chars "0/0"))
        , (chars "url", .str [])
        , (chars "closed", .bool false) ]) := by
  have h := claim8_missing_fields_defaults [(chars "id", .str (chars "c1"))] none none
    (.inl rfl) (.inl rfl) (.inl rfl) (.inl rfl) (.inl rfl) (.inl rfl)
    (.inl rfl) (.inl rfl) (.inl rfl)
  exact h.1

/-- Claim C10 (counterexample): an array whose first element is `null` makes
the dispatcher's shape sniffing read `null.lists` and raise a `TypeError`
instead of returning the payload unchanged. -/
theorem claim10_null_first_element_raises :
    cleanTrelloResponse (.arr [.null]) = .error () := rfl

/-- Claim C10 (amended): the dispatcher returns its argument unchanged for
every falsy payload (`null`, `undefined`, `0`, `''`, `false`), for the empty
array, for any truthy non-array payload carrying none of the five shape
markers, and for any nonempty array whose first element is sniffable (not
`null`/`undefined`) and carries none of the markers; a `null`/`undefined`
first element instead raises a `TypeError` (see the counterexample). -/
theorem claim10_dispatcher_identity :
    (∀ v : JVal, truthy v = false → cleanTrelloResponse v = .ok v) ∧
    cleanTrelloResponse (.arr []) = .ok (.arr []) ∧
    (∀ v : JVal, truthy v = true → (∀ xs, v ≠ .arr xs) →
      jgetTotal v (chars "lists") = .undefined →
      jgetTotal v (chars "prefs") = .undefined →
      jgetTotal v (chars "cards") = .undefined →
      jgetTotal v (chars "idList") = .undefined →
      jgetTotal v (chars "badges") = .undefined →
      cleanTrelloResponse v = .ok v) ∧
    (∀ (v : JVal) (vs : List JVal), v ≠ .null → v ≠ .undefined →
      jgetTotal v (chars "lists") = .undefined →
      jgetTotal v (chars "prefs") = .undefined →
      jgetTotal v (chars "cards") = .undefined →
      jgetTotal v (chars "idList") = .undefined →
      jgetTotal v (chars "badges") = .undefined →
      cleanTrelloResponse (.arr (v :: vs)) = .ok (.arr (v :: vs))) := by
  refine ⟨?_, rfl, ?_, ?_⟩
  · intro v h
    simp [cleanTrelloResponse, h, exceptPure_eq_ok]
  · intro v htr hnarr h1 h2 h3 h4 h5
    cases v with
    | null => simp [truthy] at htr
    | undefined => simp [truthy] at htr
    | arr xs => exact absurd rfl (hnarr xs)
    | bool b =>
      simp [cleanTrelloResponse, htr, jget, jgetTotal, isUndefined, exceptOk_bind,
        exceptPure_eq_ok]
    | num q =>
      simp [cleanTrelloResponse, htr, jget, jgetTotal, isUndefined, exceptOk_bind,
        exceptPure_eq_ok]
    | str s =>
      simp [cleanTrelloResponse, htr, jget, jgetTotal, isUndefined, exceptOk_bind,
        exceptPure_eq_ok]
    | obj fs =>
      simp [cleanTrelloResponse, jget, h1, h2, h3, h4, h5, isUndefined, exceptOk_bind,
        exceptPure_eq_ok]
  · intro v vs hn hu h1 h2 h3 h4 h5
    simp [cleanTrelloResponse, jget_ok v (chars "lists") hn hu,
      jget_ok v (chars "prefs") hn hu, jget_ok v (chars "cards") hn hu,
      jget_ok v (chars "idList") hn hu, jget_ok v (chars "badges") hn hu,
      h1, h2, h3, h4, h5, isUndefined, exceptOk_bind, exceptPure_eq_ok]

/-- Concrete instances of claim C10's amended theorem. -/
theorem claim10_witness :
    cleanTrelloResponse .null = .ok .null ∧
    cleanTrelloResponse (.obj [(chars "foo", .num 1)]) =
      .ok (.obj [(chars "foo", .num 1)]) ∧
    cleanTrelloResponse (.arr [.num 5]) = .ok (.arr [.num 5]) := by
  refine ⟨claim10_dispatcher_identity.1 .null rfl, ?_, ?_⟩
  · exact claim10_dispatcher_identity.2.2.1 (.obj [(chars "foo", .num 1)]) rfl
      (fun xs h => JVal.noConfusion h) rfl rfl rfl rfl rfl
  · exact claim10_dispatcher_identity.2.2.2 (.num 5) []
      (fun h => JVal.noConfusion h) (fun h => JVal.noConfusion h) rfl rfl rfl rfl rfl

/-- Concrete instance of claim C3: the spec's scenario — resolving `"Dev"`
among `"Dev"`/`"Devs"` returns the exact hit immediately, for a board and a
list alike, despite the fuzzy ambiguity of the pair. -/
theorem claim3_witness :
    (resolveBoardId (chars "Dev") none
      [⟨chars "r1", chars "Dev"⟩, ⟨chars "r2", chars "Devs"⟩] none 0).1 =
      .ok ⟨chars "r1", true⟩ ∧
    (resolveListId (chars "b1") (chars "Dev")
      [⟨chars "r1", chars "Dev"⟩, ⟨chars "r2", chars "Devs"⟩] none 0).1 =
      .ok ⟨chars "r1", true⟩ := by
  have h := claim3_exact_match_short_circuit (chars "Dev") none
    [⟨chars "r1", chars "Dev"⟩, ⟨chars "r2", chars "Devs"⟩] none 0 (chars "b1")
    (by decide) (fun _ hc => Option.noConfusion hc) (fun _ hc => Option.noConfusion hc)
    ⟨⟨chars "r1", chars "Dev"⟩, by decide, by decide⟩
  obtain ⟨r, hfind, _, hres⟩ := h.1
  obtain ⟨r', hfind', _, hres'⟩ := h.2
  have hcomp : ([⟨chars "r1", chars "Dev"⟩, ⟨chars "r2", chars "Devs"⟩] :
      List NamedRec).find? (fun b => normName b.name = normName (chars "Dev")) =
      some ⟨chars "r1", chars "Dev"⟩ := by decide
  rw [hcomp] at hfind hfind'
  injection hfind with he
  injection hfind' with he'
  subst he
  subst he'
  exact ⟨hres, hres'⟩
